import Mathlib

/-!
Verification of the `vkw::Allocator` GPU sub-allocator (src/src/vkw/Allocator.cpp,
src/include/vkw/Allocator.h).

The C++ code is shallowly embedded: `uint64_t` / `VkDeviceSize` / `VkDeviceAddress`
values become `Nat`, with an explicit `% 2^64` wherever the C code can wrap;
`std::map<uint64_t, Subchunk>` becomes a key-sorted association list (iteration in
ascending key order, like `std::map`); fallible calls return `Option`; `abort()`
paths are distinguished outcome constructors.  Driver calls (`vkAllocateMemory`)
are modelled by an oracle parameter mapping (size, type index) to a `VkResult`.
-/

namespace Vkw

set_option maxHeartbeats 1000000

/-- Modulus of the 64-bit unsigned arithmetic used throughout the allocator. -/
def U64 : Nat := 2 ^ 64

/-- C: `align_down(offset, alignment) = offset & ~(alignment - 1)` on `uint64_t`.
For `alignment ≥ 1`, `~(alignment - 1)` is the 64-bit value `2^64 - alignment`;
for `alignment = 0` the mask is `~(uint64 max) = 0`. -/
def align_down (offset alignment : Nat) : Nat :=
  Nat.land offset ((U64 - alignment) % U64)

/-- C: `align_up(offset, alignment) = align_down(offset + alignment - 1, alignment)`;
the addition wraps in `uint64_t`, hence the `% U64`. -/
def align_up (offset alignment : Nat) : Nat :=
  align_down ((offset + alignment + (U64 - 1)) % U64) alignment

/-- C: `on_same_page(a_offset, a_size, b_offset, page_size)` — whether the last byte
of range `a` and the first byte of `b` land on the same `page_size`-aligned page.
`a_end = a_offset + a_size - 1` is `uint64_t` arithmetic (wraps when `a_size = 0`). -/
def on_same_page (a_offset a_size b_offset page_size : Nat) : Bool :=
  let a_end := (a_offset + a_size + (U64 - 1)) % U64
  let a_page_end := align_down a_end page_size
  let b_page_start := align_down b_offset page_size
  a_page_end == b_page_start

/-- C: `Allocator::Subchunk::Type` — the resource kind tag of a chunk. -/
inductive SubchunkType where
  | Free
  | Linear
  | Image
deriving Repr, DecidableEq

/-- C: `Subchunk::Type::has_conflict(other)`:
`value != Free && other.value != Free && value != other.value`. -/
def SubchunkType.has_conflict (a b : SubchunkType) : Bool :=
  a != SubchunkType.Free && b != SubchunkType.Free && a != b

/-- C: `Allocator::Subchunk` — one contiguous sub-range of a block. -/
structure Subchunk where
  m_size : Nat
  m_offset : Nat
  m_ty : SubchunkType
  m_prev : Nat
  m_next : Nat
deriving Repr, DecidableEq

instance : Inhabited Subchunk := ⟨⟨0, 0, SubchunkType.Free, 0, 0⟩⟩

/-- The chunk container `std::map<uint64_t, Subchunk>`, as an association list kept
sorted by strictly increasing key.  Iteration order of the list models the
ascending-key iteration order of `std::map`. -/
abbrev Chunks : Type := List (Nat × Subchunk)

/-- Lookup (`std::map::find`). -/
def mapFind (m : Chunks) (k : Nat) : Option Subchunk :=
  match m with
  | [] => none
  | (k', v) :: t => if k = k' then some v else mapFind t k

/-- Insert-or-assign at a key, keeping the list sorted by key
(`std::map::operator[] = value`). -/
def mapInsert (m : Chunks) (k : Nat) (v : Subchunk) : Chunks :=
  match m with
  | [] => [(k, v)]
  | (k', v') :: t =>
    if k < k' then (k, v) :: (k', v') :: t
    else if k = k' then (k, v) :: t
    else (k', v') :: mapInsert t k v

/-- Erase the (unique) entry with the given key (`std::map::erase`). -/
def mapErase (m : Chunks) (k : Nat) : Chunks :=
  match m with
  | [] => []
  | (k', v) :: t => if k' = k then mapErase t k else (k', v) :: mapErase t k

/-- Read access `m_chunks[k]` when the key is known to be present; absent keys
give a default `Subchunk` (`std::map::operator[]` would default-construct). -/
def mapGetD (m : Chunks) (k : Nat) : Subchunk :=
  (mapFind m k).getD default

/-- C: `vkw::SingleAllocation` — the allocation token.  `m_allocator` models
pointer non-nullness; the opaque `VkDeviceMemory m_memory` handle is omitted. -/
structure SingleAllocation where
  m_allocator : Bool
  m_chunk_id : Nat
  m_block_index : Nat
  m_type_index : Nat
  m_offset : Nat
  m_size : Nat
deriving Repr, DecidableEq

/-- The default-constructed (zeroed) token. -/
def SingleAllocation.null : SingleAllocation :=
  { m_allocator := false, m_chunk_id := 0, m_block_index := 0, m_type_index := 0,
    m_offset := 0, m_size := 0 }

/-- C: `SingleAllocation::operator bool`:
`m_allocator && m_chunk_id != 0 && m_size != 0`. -/
def SingleAllocation.isValid (a : SingleAllocation) : Bool :=
  a.m_allocator && a.m_chunk_id != 0 && a.m_size != 0

/-- C: `Allocator::DMemBlock` — one device-memory block and its chunk chain.
The native `VkDeviceMemory m_handle`, map pointer and mutex are omitted. -/
structure DMemBlock where
  m_size : Nat
  m_best_fit : Bool
  m_counter : Nat
  m_chunks : Chunks
deriving DecidableEq

instance : Inhabited DMemBlock := ⟨⟨0, false, 2, []⟩⟩

/-- C: the `DMemBlock(handle, size, best_fit)` constructor: counter starts at 2 and
chunk id 1 spans the whole block as a single Free chunk. -/
def DMemBlock.create (size : Nat) (best_fit : Bool) : DMemBlock :=
  { m_size := size, m_best_fit := best_fit, m_counter := 2,
    m_chunks := [(1, { m_size := size, m_offset := 0, m_ty := SubchunkType.Free,
                       m_prev := 0, m_next := 0 })] }

/-- C: `DMemBlock::allocated()` — total bytes of non-Free chunks. -/
def DMemBlock.allocated (b : DMemBlock) : Nat :=
  b.m_chunks.foldl
    (fun total ch => if ch.2.m_ty ≠ SubchunkType.Free then total + ch.2.m_size else total) 0

/-- C: `DMemBlock::next_chunk_id()` — returns 0 (invalid) once the counter is
saturated at `uint64` max, otherwise the current counter value, post-incrementing. -/
def DMemBlock.next_chunk_id (b : DMemBlock) : Nat × DMemBlock :=
  if b.m_counter = U64 - 1 then (0, b)
  else (b.m_counter, { b with m_counter := b.m_counter + 1 })

/-- Scan result of the chunk loop of `DMemBlock::allocate`: the candidate chunk id
(0 = none found), its aligned start offset, its size, and the padded request size.
C leaves `best_offset` unset until a candidate is found; we start it at 0. -/
structure ScanState where
  best_fit_id : Nat
  best_offset : Nat
  best_chunk_size : Nat
  best_aligned_size : Nat
deriving Repr, DecidableEq

/-- The candidate start offset of `DMemBlock::allocate` (lines 415–420): align
the chunk start up to `alignment`, then — when the predecessor's kind conflicts
and shares a granularity page — up to `granularity`. -/
def scan_offset (m : Chunks) (chunk : Subchunk) (alignment granularity : Nat) : Nat :=
  let offset0 := align_up chunk.m_offset alignment
  if chunk.m_prev ≠ 0 then
    let prev_chunk := mapGetD m chunk.m_prev
    if chunk.m_ty.has_conflict prev_chunk.m_ty = true ∧
       on_same_page prev_chunk.m_offset prev_chunk.m_size offset0 granularity = true
    then align_up offset0 granularity
    else offset0
  else offset0

/-- The padded request size (lines 422): `padding + size` where
`padding = offset - chunk.m_offset`, in wrap-around `uint64_t` arithmetic. -/
def scan_aligned_size (chunk : Subchunk) (offset size : Nat) : Nat :=
  ((offset + U64 - chunk.m_offset % U64) % U64 + size) % U64

/-- The `for (auto& it : m_chunks)` loop body of `DMemBlock::allocate`:
walk the entries in ascending id order, keeping the best (or first) valid
candidate.  `m` is the whole chunk map (for `m_prev`/`m_next` lookups), the list
argument is the tail of entries still to visit. -/
def scanChunks (m : Chunks) (size alignment granularity : Nat) (best_fit : Bool) :
    List (Nat × Subchunk) → ScanState → ScanState
  | [], s => s
  | (id, chunk) :: rest, s =>
    if chunk.m_ty = SubchunkType.Free ∧ size ≤ chunk.m_size then
      if chunk.m_size <
          scan_aligned_size chunk (scan_offset m chunk alignment granularity) size then
        scanChunks m size alignment granularity best_fit rest s
      else if chunk.m_next ≠ 0 ∧
              (let next_chunk := mapGetD m chunk.m_next
               chunk.m_ty.has_conflict next_chunk.m_ty = true ∧
               on_same_page (scan_offset m chunk alignment granularity) size
                 next_chunk.m_offset granularity = true) then
        scanChunks m size alignment granularity best_fit rest s
      else if best_fit then
        scanChunks m size alignment granularity best_fit rest
          (if s.best_fit_id = 0 ∨ chunk.m_size < s.best_chunk_size then
            { best_fit_id := id, best_offset := scan_offset m chunk alignment granularity,
              best_chunk_size := chunk.m_size,
              best_aligned_size :=
                scan_aligned_size chunk (scan_offset m chunk alignment granularity) size }
          else s)
      else
        (if s.best_fit_id = 0 ∨ chunk.m_size < s.best_chunk_size then
          { best_fit_id := id, best_offset := scan_offset m chunk alignment granularity,
            best_chunk_size := chunk.m_size,
            best_aligned_size :=
              scan_aligned_size chunk (scan_offset m chunk alignment granularity) size }
        else s)
    else scanChunks m size alignment granularity best_fit rest s

/-- The whole-map scan of `DMemBlock::allocate`, from the C initial state
(`best_fit_id = 0`, sizes at `uint64` max). -/
def allocScan (b : DMemBlock) (size alignment granularity : Nat) : ScanState :=
  scanChunks b.m_chunks size alignment granularity b.m_best_fit b.m_chunks
    { best_fit_id := 0, best_offset := 0,
      best_chunk_size := U64 - 1, best_aligned_size := U64 - 1 }

/-- The structural edit of the subdivide branch of `DMemBlock::allocate`
(lines 447–461): link a child of size `asz` in before the winning chunk `bid`,
shrink `bid` to the remainder, and retarget the predecessor's forward link. -/
def splitChunks (m : Chunks) (bid child_id asz : Nat) (kind : SubchunkType) : Chunks :=
  let parent := mapGetD m bid
  let child : Subchunk :=
    { m_size := asz, m_offset := parent.m_offset, m_ty := kind,
      m_prev := parent.m_prev, m_next := bid }
  let parent' : Subchunk :=
    { parent with m_prev := child_id, m_offset := parent.m_offset + asz,
                  m_size := parent.m_size - asz }
  let chunks1 := mapInsert m child_id child
  let chunks2 := mapInsert chunks1 bid parent'
  if child.m_prev ≠ 0 then
    let pp := mapGetD chunks2 child.m_prev
    mapInsert chunks2 child.m_prev { pp with m_next := child_id }
  else chunks2

/-- The structural edit of the exact-fit branch of `DMemBlock::allocate`
(line 469): flip the winning chunk's kind in place. -/
def flipChunk (m : Chunks) (bid : Nat) (kind : SubchunkType) : Chunks :=
  mapInsert m bid { mapGetD m bid with m_ty := kind }

/-- C: `DMemBlock::allocate(size, alignment, linear, granularity, out)`.
On success the returned pair is the updated token (`out.m_chunk_id`, `m_size`,
`m_offset` assigned) and the updated block; `none` models `return false`. -/
def DMemBlock.allocate (b : DMemBlock) (size alignment : Nat) (linear : Bool)
    (granularity : Nat) (out : SingleAllocation) : Option (SingleAllocation × DMemBlock) :=
  if b.m_size - b.allocated < size then none
  else
    let s := allocScan b size alignment granularity
    if s.best_fit_id = 0 then none
    else if s.best_aligned_size < s.best_chunk_size then
      -- C: `best_chunk_size > best_aligned_size` — subdivide the best chunk.
      let r := b.next_chunk_id
      if r.1 = 0 then none
      else
        let out' : SingleAllocation :=
          { out with m_chunk_id := r.1,
                     m_size := s.best_aligned_size,
                     m_offset := s.best_offset }
        let chunks' := splitChunks r.2.m_chunks s.best_fit_id r.1 s.best_aligned_size
          (if linear then SubchunkType.Linear else SubchunkType.Image)
        some (out', { r.2 with m_chunks := chunks' })
    else
      -- C: the best chunk is optimal; flip its kind in place.
      let out' : SingleAllocation :=
        { out with m_chunk_id := s.best_fit_id,
                   m_size := s.best_aligned_size,
                   m_offset := s.best_offset }
      let chunks' := flipChunk b.m_chunks s.best_fit_id
        (if linear then SubchunkType.Linear else SubchunkType.Image)
      some (out', { b with m_chunks := chunks' })

/-- C: `DMemBlock::merge_free_chunks(li, ri)` — `li` absorbs its chain successor
`ri`: takes over its forward link and size, retargets the successor-of-`ri`'s
back link, and erases `ri`. -/
def merge_free_chunks (m : Chunks) (li ri : Nat) : Chunks :=
  let right := mapGetD m ri
  let left := mapGetD m li
  let left' := { left with m_next := right.m_next, m_size := left.m_size + right.m_size }
  let m1 := mapInsert m li left'
  let m2 :=
    if right.m_next ≠ 0 then
      let n := mapGetD m1 right.m_next
      mapInsert m1 right.m_next { n with m_prev := li }
    else m1
  mapErase m2 ri

/-- C: `DMemBlock::free(id)` — mark the chunk Free, merge with a Free chain
successor, then with a Free chain predecessor; unknown ids are ignored. -/
def DMemBlock.free (b : DMemBlock) (id : Nat) : DMemBlock :=
  match mapFind b.m_chunks id with
  | none => b
  | some c =>
    let chunks0 := mapInsert b.m_chunks id { c with m_ty := SubchunkType.Free }
    let prev_id := c.m_prev
    let next_id := c.m_next
    let chunks1 :=
      if next_id ≠ 0 ∧ (mapGetD chunks0 next_id).m_ty = SubchunkType.Free then
        merge_free_chunks chunks0 id next_id
      else chunks0
    let chunks2 :=
      if prev_id ≠ 0 ∧ (mapGetD chunks1 prev_id).m_ty = SubchunkType.Free then
        merge_free_chunks chunks1 prev_id id
      else chunks1
    { b with m_chunks := chunks2 }

/-- C: the `VkMappedMemoryRange` filled by `Allocator::flush_memory` /
`Allocator::invalidate`: exactly the token's offset and size are handed to the
driver. -/
structure VkMappedMemoryRange where
  offset : Nat
  size : Nat
deriving Repr, DecidableEq

/-- C: `Allocator::flush_memory(a)` — the byte range passed to
`vkFlushMappedMemoryRanges` (`invalidate` passes the identical range). -/
def flush_memory (a : SingleAllocation) : VkMappedMemoryRange :=
  { offset := a.m_offset, size := a.m_size }

/-- One externally driven operation on a block, for reachable-state reasoning. -/
inductive Op where
  | alloc (size alignment : Nat) (linear : Bool) (granularity : Nat)
  | free (id : Nat)
deriving Repr, DecidableEq

/-- Run one operation against a block (a failed allocate leaves it unchanged,
as in C where `allocate` returning false performs no structural edit). -/
def runOp (b : DMemBlock) (op : Op) : DMemBlock :=
  match op with
  | Op.alloc size alignment linear granularity =>
    match b.allocate size alignment linear granularity SingleAllocation.null with
    | some (_, b') => b'
    | none => b
  | Op.free id => b.free id

/-- Run a sequence of operations left to right. -/
def runOps (ops : List Op) (b : DMemBlock) : DMemBlock :=
  ops.foldl runOp b

/-! ## Concrete interference scenario (claim C1)

A fresh 128-byte block with `bufferImageGranularity = 64`: first an Image (opaque)
allocation of 16 bytes, then a Linear one of 16 bytes.  In `DMemBlock::allocate`
the interference guards call `chunk.m_ty.has_conflict(...)` on the candidate
chunk itself, whose type the candidate filter constrains to `Free`; since
`has_conflict` requires both sides non-Free, both guards are identically false
and the Linear allocation lands at offset 16, on the same 64-byte granularity
page as the Image chunk `[0, 16)`. -/
/-- The C1 failing scenario: block of capacity 128, granularity 64. -/
def c1_block0 : DMemBlock := DMemBlock.create 128 false

/-- First allocation: 16 bytes, alignment 1, Image kind (`linear = false`). -/
def c1_step1 : Option (SingleAllocation × DMemBlock) :=
  c1_block0.allocate 16 1 false 64 SingleAllocation.null

/-- Block state after the Image allocation. -/
def c1_block1 : DMemBlock := ((c1_step1.map Prod.snd).getD default)

/-- Second allocation: 16 bytes, alignment 1, Linear kind (`linear = true`). -/
def c1_step2 : Option (SingleAllocation × DMemBlock) :=
  c1_block1.allocate 16 1 true 64 SingleAllocation.null

/-! ## Concrete fit-policy scenario (claim C3)

A 200-byte block is driven into a state whose free chunks have sizes
{100, 10, 50} in chunk-chain order (ids 2, 4, 6), separated by live allocations.
The same operation sequence is replayed against a best-fit block and a
first-fit block; with only one free chunk alive at each construction step the
two policies build identical layouts. -/
/-- Operations building the {100, 10, 50} free-chunk layout. -/
def c3_ops : List Op :=
  [Op.alloc 100 1 true 1, Op.alloc 10 1 true 1, Op.alloc 10 1 true 1,
   Op.alloc 10 1 true 1, Op.alloc 50 1 true 1, Op.alloc 20 1 true 1,
   Op.free 2, Op.free 4, Op.free 6]

/-- The layout under best-fit policy. -/
def c3_best_block : DMemBlock := runOps c3_ops (DMemBlock.create 200 true)

/-- The layout under first-fit policy. -/
def c3_first_block : DMemBlock := runOps c3_ops (DMemBlock.create 200 false)

/-- Best-fit request of 10 bytes against the {100, 10, 50} layout. -/
def c3_best_result : Option (SingleAllocation × DMemBlock) :=
  c3_best_block.allocate 10 1 true 1 SingleAllocation.null

/-- First-fit request of 10 bytes against the {100, 10, 50} layout. -/
def c3_first_result : Option (SingleAllocation × DMemBlock) :=
  c3_first_block.allocate 10 1 true 1 SingleAllocation.null

/-- The chunk chain of the constructed {100, 10, 50} layout, as a literal. -/
def c3_layout : Chunks :=
  [(1, ⟨20, 180, SubchunkType.Linear, 6, 0⟩),
   (2, ⟨100, 0, SubchunkType.Free, 0, 3⟩),
   (3, ⟨10, 100, SubchunkType.Linear, 2, 4⟩),
   (4, ⟨10, 110, SubchunkType.Free, 3, 5⟩),
   (5, ⟨10, 120, SubchunkType.Linear, 4, 6⟩),
   (6, ⟨50, 130, SubchunkType.Free, 5, 1⟩)]

/-! ## Concrete coalescing scenario (claim C4)

Three 10-byte chunks A, B, C (ids 2, 3, 1) allocated contiguously fill an
otherwise-empty 30-byte block; the six possible free orders must each leave a
single Free chunk spanning `[0, 30)`. -/
/-- The fully-allocated three-chunk block: A = id 2 at [0,10), B = id 3 at
[10,20), C = id 1 at [20,30). -/
def c4_base : DMemBlock :=
  runOps [Op.alloc 10 1 true 1, Op.alloc 10 1 true 1, Op.alloc 10 1 true 1]
    (DMemBlock.create 30 false)

/-- Whether a block consists of exactly one Free chunk spanning `[0, capacity)`
with sentinel links. -/
def isSingleFreeSpan (b : DMemBlock) : Bool :=
  match b.m_chunks with
  | [(_, c)] =>
    c.m_offset == 0 && c.m_size == b.m_size && c.m_ty == SubchunkType.Free &&
      c.m_prev == 0 && c.m_next == 0
  | _ => false

/-! ## The type/pool manager (`vkw::Allocator`)

State carried by the `Allocator` object: the hardware type/heap tables and the
per-kind pools of blocks (mutexes, device handle and map pointers are not
modelled).  The native `vkAllocateMemory` call is modelled by an oracle
parameter mapping (requested size, type index) to a `VkResult`. -/
/-- Vulkan memory property flag bits used by the allocator. -/
def VK_MEMORY_PROPERTY_DEVICE_LOCAL_BIT : Nat := 1

/-- Host-visible property bit. -/
def VK_MEMORY_PROPERTY_HOST_VISIBLE_BIT : Nat := 2

/-- Host-coherent property bit. -/
def VK_MEMORY_PROPERTY_HOST_COHERENT_BIT : Nat := 4

/-- Host-cached property bit. -/
def VK_MEMORY_PROPERTY_HOST_CACHED_BIT : Nat := 8

/-- Lazily-allocated property bit. -/
def VK_MEMORY_PROPERTY_LAZILY_ALLOCATED_BIT : Nat := 16

/-- C: `VkMemoryType` — property flags plus owning heap index. -/
structure VkMemoryType where
  propertyFlags : Nat
  heapIndex : Nat
deriving Repr, DecidableEq

instance : Inhabited VkMemoryType := ⟨⟨0, 0⟩⟩

/-- C: `VkMemoryRequirements` — size, alignment and acceptable-kind bitmask. -/
structure VkMemoryRequirements where
  size : Nat
  alignment : Nat
  memoryTypeBits : Nat
deriving Repr, DecidableEq

/-- Result codes of the modelled `vkAllocateMemory` driver call. -/
inductive VkResult where
  | VK_SUCCESS
  | VK_ERROR_OUT_OF_DEVICE_MEMORY
  | VK_ERROR_OUT_OF_HOST_MEMORY
  | VK_OTHER_ERROR
deriving Repr, DecidableEq

/-- The driver oracle: maps (allocationSize, memoryTypeIndex) to a result. -/
def DriverOracle : Type := Nat → Nat → VkResult

/-- C: the persistent fields of `vkw::Allocator`. -/
structure Allocator where
  m_types : List VkMemoryType
  m_heaps : List Nat
  m_pools : List (List (Option DMemBlock))
  m_best_fit : Bool
  m_buffer_image_granularity : Nat
deriving DecidableEq

/-- C: `NO_SUCH_MEMTYPE = std::numeric_limits<size_t>::max()`. -/
def NO_SUCH_MEMTYPE : Nat := U64 - 1

/-- C: `Allocator::find_type_index(requirements, flags)` — the first memory type
whose bit is set in `memoryTypeBits` and whose property flags contain `flags`. -/
def find_type_index_go (req : VkMemoryRequirements) (flags : Nat) :
    Nat → List VkMemoryType → Nat
  | _, [] => NO_SUCH_MEMTYPE
  | i, t :: rest =>
    let is_required_type := Nat.testBit req.memoryTypeBits i
    let has_required_props := Nat.land t.propertyFlags flags == flags
    if is_required_type && has_required_props then i
    else find_type_index_go req flags (i + 1) rest

/-- C: `Allocator::find_type_index`. -/
def Allocator.find_type_index (st : Allocator) (req : VkMemoryRequirements)
    (flags : Nat) : Nat :=
  find_type_index_go req flags 0 st.m_types

/-- Result of `Allocator::create_memory_block`: a fresh block on `VK_SUCCESS`,
`oom` (null block) on the two documented out-of-memory codes, `fatal` for every
other result (C logs and calls `abort()`). -/
inductive CreateResult where
  | created (b : DMemBlock)
  | oom
  | fatal
deriving DecidableEq

/-- C: `Allocator::create_memory_block(size, type_index)`. -/
def create_memory_block (oracle : DriverOracle) (best_fit : Bool)
    (size type_index : Nat) : CreateResult :=
  match oracle size type_index with
  | VkResult.VK_SUCCESS => CreateResult.created (DMemBlock.create size best_fit)
  | VkResult.VK_ERROR_OUT_OF_DEVICE_MEMORY => CreateResult.oom
  | VkResult.VK_ERROR_OUT_OF_HOST_MEMORY => CreateResult.oom
  | VkResult.VK_OTHER_ERROR => CreateResult.fatal

/-- The size-backoff loop of `Allocator::allocate` (steps 2–3):
`for (int i = 0; i < 4; i++) { new_block = create_memory_block(memblock_size >> i, ...);
if (new_block) break; }`.  Alongside the loop result, the list of sizes actually
passed to the driver is returned, so the call sequence is visible to theorems. -/
def backoff_go (oracle : DriverOracle) (best_fit : Bool) (memblock_size type_index : Nat) :
    Nat → Nat → List Nat × CreateResult
  | _, 0 => ([], CreateResult.oom)
  | i, fuel + 1 =>
    match create_memory_block oracle best_fit (memblock_size >>> i) type_index with
    | CreateResult.created b => ([memblock_size >>> i], CreateResult.created b)
    | CreateResult.oom =>
      let r := backoff_go oracle best_fit memblock_size type_index (i + 1) fuel
      ((memblock_size >>> i) :: r.1, r.2)
    | CreateResult.fatal => ([memblock_size >>> i], CreateResult.fatal)

/-- The backoff loop started at attempt 0 with the four C iterations. -/
def block_backoff (oracle : DriverOracle) (best_fit : Bool)
    (memblock_size type_index : Nat) : List Nat × CreateResult :=
  backoff_go oracle best_fit memblock_size type_index 0 4

/-- C: `Allocator::insert_block(pool, block)` — reuse the first empty slot, else
append; returns the slot index and the updated pool. -/
def insert_block (pool : List (Option DMemBlock)) (block : DMemBlock) :
    Nat × List (Option DMemBlock) :=
  match pool with
  | [] => (0, [some block])
  | none :: rest => (0, some block :: rest)
  | some x :: rest =>
    let r := insert_block rest block
    (r.1 + 1, some x :: r.2)

/-- Outcome of `Allocator::allocate` / `allocate_defensive`: `ok` models
`return true` with the filled token, `failed` models `return false`, `aborted`
models reaching `abort()`. -/
inductive AllocOutcome where
  | ok (out : SingleAllocation) (st : Allocator)
  | failed (st : Allocator)
  | aborted
deriving DecidableEq

/-- Step 1 of `Allocator::allocate`: scan the existing blocks of the pool in
slot order, setting the token's routing fields before each block-level attempt. -/
def scan_pool (req : VkMemoryRequirements) (linear : Bool) (gran type_index : Nat)
    (out0 : SingleAllocation) :
    List (Option DMemBlock) → Nat → Option (SingleAllocation × List (Option DMemBlock))
  | [], _ => none
  | none :: rest, i =>
    (scan_pool req linear gran type_index out0 rest (i + 1)).map
      (fun r => (r.1, none :: r.2))
  | some b :: rest, i =>
    let out1 := { out0 with m_allocator := true, m_block_index := i,
                            m_type_index := type_index }
    match b.allocate req.size req.alignment linear gran out1 with
    | some (out, b') => some (out, some b' :: rest)
    | none =>
      (scan_pool req linear gran type_index out0 rest (i + 1)).map
        (fun r => (r.1, some b :: r.2))

/-- The tail of `Allocator::allocate` once a new block was obtained: insert it
into the pool, fill the token's routing fields, and allocate from it. -/
def finish_new_block (st : Allocator) (req : VkMemoryRequirements) (linear : Bool)
    (type_index : Nat) (out0 : SingleAllocation) (nb : DMemBlock) : AllocOutcome :=
  let pool := st.m_pools.getD type_index []
  let r := insert_block pool nb
  let bi := r.1
  let pool1 := r.2
  let out1 := { out0 with m_allocator := true, m_block_index := bi,
                          m_type_index := type_index }
  match pool1.getD bi none with
  | some b =>
    match b.allocate req.size req.alignment linear st.m_buffer_image_granularity out1 with
    | some (out, b') =>
      AllocOutcome.ok out
        { st with m_pools := st.m_pools.set type_index (pool1.set bi (some b')) }
    | none =>
      AllocOutcome.failed { st with m_pools := st.m_pools.set type_index pool1 }
  | none => AllocOutcome.failed { st with m_pools := st.m_pools.set type_index pool1 }

/-- C: `Allocator::allocate(requirements, flags, type_index, linear, dedicated, out)`
(Allocator.cpp lines 70–118): heap capacity check, pool scan, preferred-size
block creation with backoff, then the dedicated/fallback creation sized to the
request, which `abort()`s if it fails too. -/
def Allocator.allocate (st : Allocator) (oracle : DriverOracle)
    (req : VkMemoryRequirements) (flags type_index : Nat) (linear dedicated : Bool)
    (out0 : SingleAllocation) : AllocOutcome :=
  let heap_index := (st.m_types.getD type_index default).heapIndex
  let memblock_size :=
    if Nat.land flags VK_MEMORY_PROPERTY_HOST_VISIBLE_BIT ≠ 0 then 2 ^ 24 else 2 ^ 26
  let dedicated := dedicated || decide (memblock_size < req.size)
  if st.m_heaps.getD heap_index 0 < req.size then AllocOutcome.failed st
  else if dedicated then
    -- `new_block == nullptr` here; go straight to the exact-size creation.
    match create_memory_block oracle st.m_best_fit req.size type_index with
    | CreateResult.created nb => finish_new_block st req linear type_index out0 nb
    | CreateResult.oom => AllocOutcome.aborted
    | CreateResult.fatal => AllocOutcome.aborted
  else
    let pool := st.m_pools.getD type_index []
    match scan_pool req linear st.m_buffer_image_granularity type_index out0 pool 0 with
    | some (out, pool') =>
      AllocOutcome.ok out { st with m_pools := st.m_pools.set type_index pool' }
    | none =>
      match (block_backoff oracle st.m_best_fit memblock_size type_index).2 with
      | CreateResult.created nb => finish_new_block st req linear type_index out0 nb
      | CreateResult.fatal => AllocOutcome.aborted
      | CreateResult.oom =>
        match create_memory_block oracle st.m_best_fit req.size type_index with
        | CreateResult.created nb => finish_new_block st req linear type_index out0 nb
        | CreateResult.oom => AllocOutcome.aborted
        | CreateResult.fatal => AllocOutcome.aborted

/-- C: `Allocator::allocate_defensive(requirements, r_flags, p_flags, linear,
dedicated, out)` (Allocator.cpp lines 53–68): look for a kind with
required ∪ preferred flags and, if one exists, return that allocation's result
directly; only when no kind matches (and `p_flags` is nonzero) look again with
the required flags alone. -/
def Allocator.allocate_defensive (st : Allocator) (oracle : DriverOracle)
    (req : VkMemoryRequirements) (r_flags p_flags : Nat) (linear dedicated : Bool)
    (out0 : SingleAllocation) : AllocOutcome :=
  let type_index := st.find_type_index req (Nat.lor r_flags p_flags)
  if type_index ≠ NO_SUCH_MEMTYPE then
    st.allocate oracle req (Nat.lor r_flags p_flags) type_index linear dedicated out0
  else if p_flags ≠ 0 then
    let type_index2 := st.find_type_index req r_flags
    if type_index2 ≠ NO_SUCH_MEMTYPE then
      st.allocate oracle req (Nat.lor r_flags p_flags) type_index2 linear dedicated out0
    else AllocOutcome.failed st
  else AllocOutcome.failed st

/-- Outcome of `Allocator::free`: `ok` with the updated state, or `aborted` when
the `assert(block)` fires on an empty pool slot. -/
inductive FreeOutcome where
  | ok (st : Allocator)
  | aborted
deriving DecidableEq

/-- C: `Allocator::free(a)` (Allocator.cpp lines 264–284): no-op unless the
token is truthy; `assert(block)`; block-level free; release the block when it
became empty and at least one other live block exists for the kind.  The token
argument is not modified by the C code. -/
def Allocator.free (st : Allocator) (a : SingleAllocation) : FreeOutcome :=
  if a.isValid then
    let pool := st.m_pools.getD a.m_type_index []
    match pool.getD a.m_block_index none with
    | none => FreeOutcome.aborted
    | some b =>
      let b' := b.free a.m_chunk_id
      let pool1 := pool.set a.m_block_index (some b')
      if b'.allocated = 0 ∧ 1 < pool1.countP (fun ob => ob.isSome) then
        let pool2 := pool1.set a.m_block_index none
        FreeOutcome.ok { st with m_pools := st.m_pools.set a.m_type_index pool2 }
      else FreeOutcome.ok { st with m_pools := st.m_pools.set a.m_type_index pool1 }
  else FreeOutcome.ok st

/-! ## Usage-intent resolution (claims C5, C6) -/
/-- Whether an outcome is a successful allocation. -/
def AllocOutcome.isOk : AllocOutcome → Bool
  | AllocOutcome.ok _ _ => true
  | _ => false

/-- A driver oracle that always succeeds. -/
def okOracle : DriverOracle := fun _ _ => VkResult.VK_SUCCESS

/-- C5 scenario: type 0 has only the required flag (bit 1) over a 1000-byte
heap; type 1 has required ∪ preferred (bits 1|2) over a 10-byte heap. -/
def c5_state : Allocator := ⟨[⟨1, 0⟩, ⟨3, 1⟩], [1000, 10], [[], []], false, 1⟩

/-- C5 request: 100 bytes, acceptable in both types. -/
def c5_req : VkMemoryRequirements := ⟨100, 1, 3⟩

/-- C6 scenario: a single memory type, and a request whose acceptable-kinds
bitmask is empty, so no type can ever match. -/
def c6_state : Allocator := ⟨[⟨1, 0⟩], [1000], [[]], false, 1⟩

/-- C6 request: 100 bytes, `memoryTypeBits = 0` — no compatible kind. -/
def c6_req : VkMemoryRequirements := ⟨100, 1, 0⟩

/-- A driver oracle failing exactly at sizes 64 and 32. -/
def c7_oracle : DriverOracle := fun s _ =>
  if s = 64 ∨ s = 32 then VkResult.VK_ERROR_OUT_OF_DEVICE_MEMORY else VkResult.VK_SUCCESS

/-- A driver oracle that always reports out-of-device-memory. -/
def oomOracle : DriverOracle := fun _ _ => VkResult.VK_ERROR_OUT_OF_DEVICE_MEMORY

/-- C8 scenario: one kind over a large heap with an empty pool. -/
def c8_state : Allocator := ⟨[⟨1, 0⟩], [2 ^ 30], [[]], false, 1⟩

/-- C8 request: a pooled 100-byte request. -/
def c8_req : VkMemoryRequirements := ⟨100, 1, 1⟩

/-! ## Free and double free (claim C9) -/
/-- C9 scenario: one host-visible kind, one pool. -/
def c9_state0 : Allocator := ⟨[⟨3, 0⟩], [2 ^ 30], [[]], false, 1⟩

/-- The token returned by the C9 allocation: chunk 2 of block 0 of type 0. -/
def c9_token : SingleAllocation := ⟨true, 2, 0, 0, 0, 10⟩

/-- State after allocating 10 bytes: one 2^24-byte block holding the Linear
chunk (id 2) and the Free remainder (id 1). -/
def c9_state1 : Allocator :=
  ⟨[⟨3, 0⟩], [2 ^ 30],
    [[some ⟨2 ^ 24, false, 3,
      [(1, ⟨2 ^ 24 - 10, 10, SubchunkType.Free, 2, 0⟩),
       (2, ⟨10, 0, SubchunkType.Linear, 0, 1⟩)]⟩]], false, 1⟩

/-- State after freeing the token once: the sole block is fully Free (it is not
released because it is the only block of its kind), with chunks merged into
id 2. -/
def c9_state2 : Allocator :=
  ⟨[⟨3, 0⟩], [2 ^ 30],
    [[some ⟨2 ^ 24, false, 3,
      [(2, ⟨2 ^ 24, 0, SubchunkType.Free, 0, 0⟩)]⟩]], false, 1⟩

/-- Invariant carried by the chunk scan: a nonzero candidate id names a Free
chunk of the map whose size is the recorded `best_chunk_size`, the padded size
fits in the chunk, the offset is a 64-bit value, and the padded size is exactly
`padding + size` in wrap-around arithmetic. -/
def ScanInv (m : Chunks) (size : Nat) (s : ScanState) : Prop :=
  s.best_fit_id ≠ 0 →
    ∃ c, mapFind m s.best_fit_id = some c ∧ c.m_ty = SubchunkType.Free ∧
      s.best_chunk_size = c.m_size ∧ s.best_aligned_size ≤ c.m_size ∧
      s.best_offset < U64 ∧
      s.best_aligned_size = scan_aligned_size c s.best_offset size

/-- The C10 witness block: a 100-byte block with a Linear chunk at `[0, 5)`
(id 2) and the Free remainder `[5, 100)` (id 1); reachable by
`create 100` followed by `allocate 5 1`. -/
def c10_block : DMemBlock :=
  ⟨100, false, 3, [(1, ⟨95, 5, SubchunkType.Free, 2, 0⟩),
                   (2, ⟨5, 0, SubchunkType.Linear, 0, 1⟩)]⟩

/-- The token returned for `allocate 10 8` on `c10_block`: offset 8 (aligned up
from 5), size 13 = padding 3 + requested 10. -/
def c10_out : SingleAllocation := ⟨false, 3, 0, 0, 8, 13⟩

/-- The block after the C10 witness allocation. -/
def c10_block' : DMemBlock :=
  ⟨100, false, 4, [(1, ⟨82, 18, SubchunkType.Free, 3, 0⟩),
                   (2, ⟨5, 0, SubchunkType.Linear, 0, 3⟩),
                   (3, ⟨13, 5, SubchunkType.Linear, 2, 1⟩)]⟩

/-- The chunk map's keys are strictly increasing (the `std::map` ordering). -/
def sortedKeys (m : Chunks) : Prop :=
  List.Pairwise (fun a b => a < b) (List.map Prod.fst m)

/-! ## Partition invariant: the chain walk -/
/-- Head of a list of ids, with a default (the expected forward link of the
last element before the given tail). -/
def headOr : List Nat → Nat → Nat
  | [], d => d
  | i :: _, _ => i

/-- Walk a candidate chain `ids` through the map: starting from back-link `p`
and byte offset `off`, each id must name a chunk at exactly offset `off` whose
`m_prev` is the previous id and whose `m_next` is the following id (or `nxt`
after the last).  Returns the last id and the final offset. -/
def walk (m : Chunks) : Nat → Nat → List Nat → Nat → Option (Nat × Nat)
  | p, off, [], _ => some (p, off)
  | p, off, i :: rest, nxt =>
    match mapFind m i with
    | none => none
    | some c =>
      if c.m_offset = off ∧ c.m_prev = p ∧ c.m_next = headOr rest nxt
      then walk m i (off + c.m_size) rest nxt
      else none

/-- Structural equality of chunks: everything except the kind tag. -/
def structEq (c c' : Subchunk) : Prop :=
  c.m_size = c'.m_size ∧ c.m_offset = c'.m_offset ∧ c.m_prev = c'.m_prev ∧
    c.m_next = c'.m_next

/-- Lift `structEq` to optional lookup results. -/
def optStructEq : Option Subchunk → Option Subchunk → Prop
  | none, none => True
  | some c, some c' => structEq c c'
  | _, _ => False

/-! ## Partition invariant: well-formedness -/
/-- The ids `ids`, walked in order from the start sentinel at offset 0, tile
exactly `[0, cap)` and close with the end sentinel. -/
def chainOk (m : Chunks) (cap : Nat) (ids : List Nat) : Prop :=
  ∃ pend, walk m 0 0 ids 0 = some (pend, cap)

/-- Well-formedness of a chunk map of capacity `cap` under id counter
`counter`: keys strictly sorted, and some id list — containing exactly the
map's keys, without duplicates, without the reserved id 0, all below the
counter — walks the chain from offset 0 to `cap` with consistent prev/next
links. -/
def wfChunks (m : Chunks) (cap counter : Nat) : Prop :=
  sortedKeys m ∧
  ∃ ids : List Nat, ids.Nodup ∧ 0 ∉ ids ∧ (∀ i ∈ ids, i < counter) ∧
    (∀ k, (mapFind m k).isSome ↔ k ∈ ids) ∧ chainOk m cap ids

/-- Well-formedness of a whole block. -/
def wfb (b : DMemBlock) : Prop :=
  2 ≤ b.m_counter ∧ wfChunks b.m_chunks b.m_size b.m_counter

/-- C1 (code bug): the spec's granularity-interference rule is dead code.  With
granularity 64, after an Image allocation occupying `[0, 16)`, a Linear request
of 16 bytes is granted offset 16 — `on_same_page 0 16 16 64 = true`, i.e. the
Image chunk's last byte and the Linear chunk's first byte share the 64-byte
page `[0, 64)`, and the two kinds do conflict (`has_conflict Image Linear`).
The claim (and spec §4.2 step 3) say the start offset would have been pushed to
the next page boundary (64). -/
theorem c1_interference_rule_is_dead :
    (c1_step2.map fun p => (p.1.m_chunk_id, p.1.m_offset, p.1.m_size)) = some (3, 16, 16) ∧
    mapFind c1_block0.m_chunks 1 ≠ none ∧
    (c1_step2.map fun p => mapFind p.2.m_chunks 2) =
      some (some { m_size := 16, m_offset := 0, m_ty := SubchunkType.Image,
                   m_prev := 0, m_next := 3 }) ∧
    (c1_step2.map fun p => mapFind p.2.m_chunks 3) =
      some (some { m_size := 16, m_offset := 16, m_ty := SubchunkType.Linear,
                   m_prev := 2, m_next := 1 }) ∧
    on_same_page 0 16 16 64 = true ∧
    SubchunkType.has_conflict SubchunkType.Image SubchunkType.Linear = true := by
  decide

lemma c3_best_block_eval : c3_best_block = ⟨200, true, 7, c3_layout⟩ := by
  decide

lemma c3_first_block_eval : c3_first_block = ⟨200, false, 7, c3_layout⟩ := by
  decide

lemma c3_best_result_eval :
    c3_best_result =
      some (⟨false, 4, 0, 0, 110, 10⟩,
        ⟨200, true, 7,
          [(1, ⟨20, 180, SubchunkType.Linear, 6, 0⟩),
           (2, ⟨100, 0, SubchunkType.Free, 0, 3⟩),
           (3, ⟨10, 100, SubchunkType.Linear, 2, 4⟩),
           (4, ⟨10, 110, SubchunkType.Linear, 3, 5⟩),
           (5, ⟨10, 120, SubchunkType.Linear, 4, 6⟩),
           (6, ⟨50, 130, SubchunkType.Free, 5, 1⟩)]⟩) := by
  unfold c3_best_result
  rw [c3_best_block_eval]
  decide

lemma c3_first_result_eval :
    c3_first_result =
      some (⟨false, 7, 0, 0, 0, 10⟩,
        ⟨200, false, 8,
          [(1, ⟨20, 180, SubchunkType.Linear, 6, 0⟩),
           (2, ⟨90, 10, SubchunkType.Free, 7, 3⟩),
           (3, ⟨10, 100, SubchunkType.Linear, 2, 4⟩),
           (4, ⟨10, 110, SubchunkType.Free, 3, 5⟩),
           (5, ⟨10, 120, SubchunkType.Linear, 4, 6⟩),
           (6, ⟨50, 130, SubchunkType.Free, 5, 1⟩),
           (7, ⟨10, 0, SubchunkType.Linear, 0, 2⟩)]⟩) := by
  unfold c3_first_result
  rw [c3_first_block_eval]
  decide

/-- C3 (confirmed): with free chunks of sizes {100, 10, 50} in chain order
(chunk ids 2, 4, 6 at offsets 0, 110, 130), a 10-byte request under best-fit
takes the 10-byte chunk (id 4) exactly: same id returned, kind flipped in
place, no new id minted (`m_counter` stays 7) and the chunk count stays 6.
Under first-fit the 100-byte chunk (id 2) is chosen and split: a new id 7 is
minted for the allocation at offset 0 and the remainder is a 90-byte Free
chunk. -/
theorem c3_fit_policy_selection :
    ((mapFind c3_best_block.m_chunks 2).map (fun c => (c.m_size, c.m_ty)) =
        some (100, SubchunkType.Free) ∧
      (mapFind c3_best_block.m_chunks 4).map (fun c => (c.m_size, c.m_ty)) =
        some (10, SubchunkType.Free) ∧
      (mapFind c3_best_block.m_chunks 6).map (fun c => (c.m_size, c.m_ty)) =
        some (50, SubchunkType.Free) ∧
      c3_best_block.m_chunks = c3_first_block.m_chunks) ∧
    ((c3_best_result.map fun p => (p.1.m_chunk_id, p.1.m_offset, p.1.m_size)) =
        some (4, 110, 10) ∧
      (c3_best_result.map fun p => p.2.m_counter) = some 7 ∧
      c3_best_block.m_counter = 7 ∧
      (c3_best_result.map fun p => p.2.m_chunks.length) = some 6 ∧
      c3_best_block.m_chunks.length = 6 ∧
      (c3_best_result.map fun p => mapFind p.2.m_chunks 4) =
        some (some { m_size := 10, m_offset := 110, m_ty := SubchunkType.Linear,
                     m_prev := 3, m_next := 5 })) ∧
    ((c3_first_result.map fun p => (p.1.m_chunk_id, p.1.m_offset, p.1.m_size)) =
        some (7, 0, 10) ∧
      (c3_first_result.map fun p => p.2.m_counter) = some 8 ∧
      (c3_first_result.map fun p => mapFind p.2.m_chunks 2) =
        some (some { m_size := 90, m_offset := 10, m_ty := SubchunkType.Free,
                     m_prev := 7, m_next := 3 }) ∧
      (c3_first_result.map fun p => mapFind p.2.m_chunks 7) =
        some (some { m_size := 10, m_offset := 0, m_ty := SubchunkType.Linear,
                     m_prev := 0, m_next := 2 })) := by
  rw [c3_best_result_eval, c3_first_result_eval, c3_best_block_eval, c3_first_block_eval]
  decide

lemma c4_base_eval :
    c4_base =
      ⟨30, false, 4,
        [(1, ⟨10, 20, SubchunkType.Linear, 3, 0⟩),
         (2, ⟨10, 0, SubchunkType.Linear, 0, 3⟩),
         (3, ⟨10, 10, SubchunkType.Linear, 2, 1⟩)]⟩ := by
  decide

/-- C4 (confirmed): freeing the three contiguous equal-size chunks in each of
the six possible orders always coalesces the block back to a single Free chunk
spanning the original combined range `[0, 30)` — merging happens eagerly at
every `DMemBlock::free`. -/
theorem c4_coalescing_all_orders :
    c4_base.m_chunks.length = 3 ∧ c4_base.allocated = 30 ∧
    isSingleFreeSpan (runOps [Op.free 2, Op.free 3, Op.free 1] c4_base) = true ∧
    isSingleFreeSpan (runOps [Op.free 2, Op.free 1, Op.free 3] c4_base) = true ∧
    isSingleFreeSpan (runOps [Op.free 3, Op.free 2, Op.free 1] c4_base) = true ∧
    isSingleFreeSpan (runOps [Op.free 3, Op.free 1, Op.free 2] c4_base) = true ∧
    isSingleFreeSpan (runOps [Op.free 1, Op.free 2, Op.free 3] c4_base) = true ∧
    isSingleFreeSpan (runOps [Op.free 1, Op.free 3, Op.free 2] c4_base) = true := by
  rw [c4_base_eval]
  decide

/-- C5 (counterexample): with required flag 1 and preferred flag 2, the
required ∪ preferred search selects type 1, whose heap (10 bytes) cannot hold
the 100-byte request, so that allocation fails — and `allocate_defensive`
returns failure immediately.  The required-only search would have selected
type 0 and the allocation there succeeds, so the claimed retry-on-failure
would have produced success; the code performs no such retry. -/
theorem c5_counterexample_no_retry :
    c5_state.find_type_index c5_req 3 = 1 ∧
    c5_state.find_type_index c5_req 1 = 0 ∧
    c5_state.allocate_defensive okOracle c5_req 1 2 true false SingleAllocation.null =
      AllocOutcome.failed c5_state ∧
    (c5_state.allocate okOracle c5_req 3 0 true false SingleAllocation.null).isOk = true := by
  refine ⟨by decide, by decide, by decide, by decide⟩

/-- C5 (amended): when a kind matching required ∪ preferred exists, its
allocation result is returned directly — also when that result is failure; the
required-only search runs only when no kind matches required ∪ preferred. -/
theorem c5_direct_return_of_first_kind (st : Allocator) (oracle : DriverOracle)
    (req : VkMemoryRequirements) (r_flags p_flags : Nat) (linear dedicated : Bool)
    (out0 : SingleAllocation) (i : Nat)
    (hfind : st.find_type_index req (Nat.lor r_flags p_flags) = i)
    (hi : i ≠ NO_SUCH_MEMTYPE) :
    st.allocate_defensive oracle req r_flags p_flags linear dedicated out0 =
      st.allocate oracle req (Nat.lor r_flags p_flags) i linear dedicated out0 := by
  unfold Allocator.allocate_defensive
  rw [hfind]
  simp [hi]

/-- Witness for `c5_direct_return_of_first_kind` at the concrete C5 scenario:
type 1 is found for required ∪ preferred, and the defensive allocation equals
the direct (failing) type-1 allocation. -/
theorem c5_witness :
    c5_state.find_type_index c5_req (Nat.lor 1 2) = 1 ∧
    (1 : Nat) ≠ NO_SUCH_MEMTYPE ∧
    c5_state.allocate_defensive okOracle c5_req 1 2 true false SingleAllocation.null =
      c5_state.allocate okOracle c5_req (Nat.lor 1 2) 1 true false SingleAllocation.null :=
  ⟨by decide, by decide,
    c5_direct_return_of_first_kind c5_state okOracle c5_req 1 2 true false
      SingleAllocation.null 1 (by decide) (by decide)⟩

/-- C6 (counterexample): when the acceptable-kinds bitmask intersects no
available memory kind (with and without the preferred flags), the code returns
`false` — a recoverable failure, observable by the caller — instead of
aborting as the claim states. -/
theorem c6_counterexample_returns_failure :
    c6_state.allocate_defensive okOracle c6_req 1 2 true false SingleAllocation.null =
      AllocOutcome.failed c6_state := by
  decide

/-- C6 (amended): when no kind matches required ∪ preferred and the
required-only search also finds nothing (or there are no preferred flags),
`allocate_defensive` returns a recoverable failure; no abort path is reached. -/
theorem c6_no_kind_is_recoverable_failure (st : Allocator) (oracle : DriverOracle)
    (req : VkMemoryRequirements) (r_flags p_flags : Nat) (linear dedicated : Bool)
    (out0 : SingleAllocation)
    (h1 : st.find_type_index req (Nat.lor r_flags p_flags) = NO_SUCH_MEMTYPE)
    (h2 : p_flags = 0 ∨ st.find_type_index req r_flags = NO_SUCH_MEMTYPE) :
    st.allocate_defensive oracle req r_flags p_flags linear dedicated out0 =
      AllocOutcome.failed st := by
  unfold Allocator.allocate_defensive
  rw [h1]
  rcases h2 with h2 | h2
  · simp [h2]
  · rw [h2]
    simp

/-- Witness for `c6_no_kind_is_recoverable_failure` at the concrete C6
scenario. -/
theorem c6_witness :
    c6_state.find_type_index c6_req (Nat.lor 1 2) = NO_SUCH_MEMTYPE ∧
    c6_state.find_type_index c6_req 1 = NO_SUCH_MEMTYPE ∧
    c6_state.allocate_defensive okOracle c6_req 1 2 true false SingleAllocation.null =
      AllocOutcome.failed c6_state :=
  ⟨by decide, by decide,
    c6_no_kind_is_recoverable_failure c6_state okOracle c6_req 1 2 true false
      SingleAllocation.null (by decide) (Or.inr (by decide))⟩

/-! ## Out-of-memory backoff (claims C7, C8) -/
/-- C7 (confirmed): if the driver reports out-of-memory at the preferred block
size `X` and at `X/2` but succeeds at `X/4`, block creation succeeds with size
`X/4`, exactly the sizes `X`, `X/2`, `X/4` having been requested from the
driver — no attempt at `X/8` is made. -/
theorem c7_backoff_stops_at_first_success (oracle : DriverOracle) (best_fit : Bool)
    (ms type_index : Nat)
    (h0 : oracle ms type_index = VkResult.VK_ERROR_OUT_OF_DEVICE_MEMORY)
    (h1 : oracle (ms >>> 1) type_index = VkResult.VK_ERROR_OUT_OF_DEVICE_MEMORY)
    (h2 : oracle (ms >>> 2) type_index = VkResult.VK_SUCCESS) :
    block_backoff oracle best_fit ms type_index =
      ([ms, ms >>> 1, ms >>> 2],
        CreateResult.created (DMemBlock.create (ms >>> 2) best_fit)) := by
  have hz : ms >>> 0 = ms := Nat.shiftRight_zero
  unfold block_backoff
  unfold backoff_go
  rw [hz]
  unfold create_memory_block
  rw [h0]
  unfold backoff_go
  unfold create_memory_block
  rw [h1]
  unfold backoff_go
  unfold create_memory_block
  rw [h2]

/-- Witness for `c7_backoff_stops_at_first_success` with `X = 64`: the driver
is asked for exactly 64, 32, 16 bytes and the created block has size 16. -/
theorem c7_witness :
    c7_oracle 64 0 = VkResult.VK_ERROR_OUT_OF_DEVICE_MEMORY ∧
    c7_oracle 32 0 = VkResult.VK_ERROR_OUT_OF_DEVICE_MEMORY ∧
    c7_oracle 16 0 = VkResult.VK_SUCCESS ∧
    block_backoff c7_oracle false 64 0 =
      ([64, 32, 16], CreateResult.created (DMemBlock.create 16 false)) :=
  ⟨by decide, by decide, by decide,
    c7_backoff_stops_at_first_success c7_oracle false 64 0 (by decide) (by decide)
      (by decide)⟩

/-- C8 (counterexample): when every driver allocation fails with out-of-memory,
`Allocator::allocate` reaches `abort()` (after the backoff loop it makes one
final attempt sized to the request at line 106 and aborts at line 109 when that
fails); it does not return the recoverable failure the claim describes. -/
theorem c8_counterexample_aborts :
    c8_state.allocate oomOracle c8_req 1 0 true false SingleAllocation.null =
      AllocOutcome.aborted := by
  decide

lemma backoff_go_all_oom (oracle : DriverOracle) (best_fit : Bool)
    (ms type_index : Nat)
    (h : ∀ s, oracle s type_index = VkResult.VK_ERROR_OUT_OF_DEVICE_MEMORY) :
    ∀ fuel i, (backoff_go oracle best_fit ms type_index i fuel).2 = CreateResult.oom := by
  intro fuel
  induction fuel with
  | zero => intro i; rfl
  | succ n ih =>
    intro i
    unfold backoff_go create_memory_block
    rw [h]
    exact ih (i + 1)

/-- C8 (amended): for a pooled request whose kind's pool is empty, if the
driver fails every allocation with out-of-memory — the backoff sequence and
the final attempt sized to the request alike — the allocator aborts the
program; the recoverable-failure path exists only for the earlier heap-capacity
check. -/
theorem c8_all_backoff_failures_abort (st : Allocator) (oracle : DriverOracle)
    (req : VkMemoryRequirements) (flags type_index : Nat) (linear : Bool)
    (out0 : SingleAllocation)
    (hheap : req.size ≤ st.m_heaps.getD (st.m_types.getD type_index default).heapIndex 0)
    (hpool : st.m_pools.getD type_index [] = [])
    (horacle : ∀ s, oracle s type_index = VkResult.VK_ERROR_OUT_OF_DEVICE_MEMORY) :
    st.allocate oracle req flags type_index linear false out0 =
      AllocOutcome.aborted := by
  unfold Allocator.allocate
  rw [hpool]
  have hb := backoff_go_all_oom oracle st.m_best_fit
    (if Nat.land flags VK_MEMORY_PROPERTY_HOST_VISIBLE_BIT ≠ 0 then 2 ^ 24 else 2 ^ 26)
    type_index horacle 4 0
  simp only [Nat.not_lt.mpr hheap, if_false, Bool.false_or]
  by_cases hd : decide ((if Nat.land flags VK_MEMORY_PROPERTY_HOST_VISIBLE_BIT ≠ 0
      then 2 ^ 24 else 2 ^ 26) < req.size) = true
  · rw [hd]
    simp only [if_true]
    unfold create_memory_block
    rw [horacle]
  · rw [Bool.not_eq_true] at hd
    rw [hd]
    simp only [if_false, scan_pool]
    rw [show (block_backoff oracle st.m_best_fit (if Nat.land flags
        VK_MEMORY_PROPERTY_HOST_VISIBLE_BIT ≠ 0 then 2 ^ 24 else 2 ^ 26)
        type_index).2 = CreateResult.oom from hb]
    unfold create_memory_block
    rw [horacle]
    rfl

/-- Witness for `c8_all_backoff_failures_abort` at the concrete C8 scenario. -/
theorem c8_witness :
    c8_req.size ≤ c8_state.m_heaps.getD
      (c8_state.m_types.getD 0 default).heapIndex 0 ∧
    c8_state.m_pools.getD 0 [] = [] ∧
    c8_state.allocate oomOracle c8_req 1 0 true false SingleAllocation.null =
      AllocOutcome.aborted :=
  ⟨by decide, rfl,
    c8_all_backoff_failures_abort c8_state oomOracle c8_req 1 0 true
      SingleAllocation.null (by decide) rfl (fun _ => rfl)⟩

/-- C9 (counterexample): after a real allocation and one free, freeing the very
same token a second time does not abort: the chunk id still exists (as the
merged Free chunk), `DMemBlock::free` re-marks it Free, and `Allocator::free`
returns normally with the state unchanged.  The claimed fatal abort on double
free does not happen while the owning block still exists. -/
theorem c9_counterexample_double_free_silent :
    c9_state0.allocate okOracle ⟨10, 1, 1⟩ 3 0 true false SingleAllocation.null =
      AllocOutcome.ok c9_token c9_state1 ∧
    c9_state1.free c9_token = FreeOutcome.ok c9_state2 ∧
    c9_state2.free c9_token = FreeOutcome.ok c9_state2 := by
  refine ⟨by decide, by decide, by decide⟩

/-- C9 (amended): `Allocator::free` on a default/zeroed token is an idempotent
no-op that changes no state (`operator bool` is false, so the body is skipped);
but a second free of an already-freed token is not reliably fatal — when the
owning block still exists the call is silently accepted with no state change
(the `assert(block)` abort can fire only when the block's pool slot was
already released). -/
theorem c9_free_semantics :
    (∀ st : Allocator, st.free SingleAllocation.null = FreeOutcome.ok st) ∧
    c9_state2.free c9_token = FreeOutcome.ok c9_state2 :=
  ⟨fun _ => rfl, by decide⟩

/-! ## Token size vs padding (claim C10) -/
lemma mapFind_cons (k' : Nat) (v : Subchunk) (t : Chunks) (k : Nat) :
    mapFind ((k', v) :: t) k = if k = k' then some v else mapFind t k := rfl

lemma mapFind_of_mem (m : Chunks) (hnd : (List.map Prod.fst m).Nodup) :
    ∀ p : Nat × Subchunk, p ∈ m → mapFind m p.1 = some p.2 := by
  induction m with
  | nil => intro p hp; cases hp
  | cons q t ih =>
    obtain ⟨k', v⟩ := q
    rw [List.map_cons, List.nodup_cons] at hnd
    intro p hp
    rcases List.mem_cons.mp hp with h | h
    · subst h
      rw [mapFind_cons, if_pos rfl]
    · rw [mapFind_cons]
      have hne : p.1 ≠ k' := by
        intro he
        have hmem : p.1 ∈ List.map Prod.fst t := List.mem_map_of_mem Prod.fst h
        rw [he] at hmem
        exact hnd.1 hmem
      rw [if_neg hne]
      exact ih hnd.2 p h

lemma U64_pos : 0 < U64 := by
  norm_num [U64]

lemma align_down_lt (o a : Nat) : align_down o a < U64 := by
  unfold align_down
  exact lt_of_le_of_lt Nat.and_le_right (Nat.mod_lt _ U64_pos)

lemma align_up_lt (o a : Nat) : align_up o a < U64 :=
  align_down_lt _ _

lemma scan_offset_lt (m : Chunks) (chunk : Subchunk) (a g : Nat) :
    scan_offset m chunk a g < U64 := by
  simp only [scan_offset]
  split
  · split
    · exact align_up_lt _ _
    · exact align_up_lt _ _
  · exact align_up_lt _ _

lemma scanChunks_inv (m : Chunks) (size alignment granularity : Nat) (best_fit : Bool) :
    ∀ (l : List (Nat × Subchunk)) (s : ScanState),
      (∀ p ∈ l, mapFind m p.1 = some p.2) → ScanInv m size s →
      ScanInv m size (scanChunks m size alignment granularity best_fit l s) := by
  intro l
  induction l with
  | nil =>
    intro s _ hs
    simpa [scanChunks] using hs
  | cons p rest ih =>
    obtain ⟨id, chunk⟩ := p
    intro s hl hs
    have hhead : mapFind m id = some chunk := hl (id, chunk) (List.mem_cons_self _ _)
    have htail : ∀ q ∈ rest, mapFind m q.1 = some q.2 :=
      fun q hq => hl q (List.mem_cons_of_mem _ hq)
    rw [scanChunks]
    split
    · rename_i hfree
      split
      · exact ih s htail hs
      · rename_i hfit
        split
        · exact ih s htail hs
        · have hs' : ScanInv m size
              (if s.best_fit_id = 0 ∨ chunk.m_size < s.best_chunk_size then
                { best_fit_id := id,
                  best_offset := scan_offset m chunk alignment granularity,
                  best_chunk_size := chunk.m_size,
                  best_aligned_size :=
                    scan_aligned_size chunk
                      (scan_offset m chunk alignment granularity) size }
              else s) := by
            split
            · intro _
              exact ⟨chunk, hhead, hfree.1, rfl, Nat.le_of_not_lt hfit,
                scan_offset_lt _ _ _ _, rfl⟩
            · exact hs
          split
          · exact ih _ htail hs'
          · exact hs'
    · exact ih s htail hs

lemma allocScan_inv (b : DMemBlock) (size alignment granularity : Nat)
    (hnd : (List.map Prod.fst b.m_chunks).Nodup) :
    ScanInv b.m_chunks size (allocScan b size alignment granularity) := by
  unfold allocScan
  refine scanChunks_inv _ _ _ _ _ _ _ (mapFind_of_mem _ hnd) ?_
  intro h0
  exact absurd rfl h0

lemma scan_aligned_size_eq (c : Subchunk) (o size : Nat) (h1 : c.m_offset ≤ o)
    (h2 : o - c.m_offset + size < U64) (h3 : o < U64) :
    scan_aligned_size c o size = o - c.m_offset + size := by
  unfold scan_aligned_size
  have hc : c.m_offset % U64 = c.m_offset := Nat.mod_eq_of_lt (lt_of_le_of_lt h1 h3)
  rw [hc]
  have e1 : o + U64 - c.m_offset = o - c.m_offset + U64 := by omega
  rw [e1, Nat.add_mod_right]
  have e2 : (o - c.m_offset) % U64 = o - c.m_offset := Nat.mod_eq_of_lt (by omega)
  rw [e2, Nat.mod_eq_of_lt h2]

/-- C10 (confirmed): a successful `DMemBlock::allocate(size, alignment, ...)`
picks some Free chunk `c` and returns a token whose `m_size` is the padded size
`padding + size` with `padding = m_offset - c.m_offset` — not the requested
`size` — so whenever the padding is positive the token's byte range
`[m_offset, m_offset + m_size)` ends `padding` bytes past the end
`c.m_offset + m_size` of the chunk actually reserved, and
`Allocator::flush_memory` / `invalidate` hand exactly this oversized range to
the driver. -/
theorem c10_token_size_is_padding_plus_size
    (b : DMemBlock) (size alignment : Nat) (linear : Bool) (granularity : Nat)
    (out0 out : SingleAllocation) (b' : DMemBlock)
    (hnd : (List.map Prod.fst b.m_chunks).Nodup)
    (h : b.allocate size alignment linear granularity out0 = some (out, b')) :
    ∃ id c, mapFind b.m_chunks id = some c ∧ c.m_ty = SubchunkType.Free ∧
      out.m_size ≤ c.m_size ∧
      out.m_size = scan_aligned_size c out.m_offset size ∧
      out.m_offset < U64 ∧
      (c.m_offset ≤ out.m_offset → out.m_offset - c.m_offset + size < U64 →
        out.m_size = out.m_offset - c.m_offset + size ∧
        flush_memory out = ⟨out.m_offset, out.m_offset - c.m_offset + size⟩ ∧
        (0 < out.m_offset - c.m_offset →
          c.m_offset + out.m_size < out.m_offset + out.m_size)) := by
  have hscan := allocScan_inv b size alignment granularity hnd
  unfold DMemBlock.allocate at h
  split at h
  · exact absurd h (by simp)
  · simp only [] at h
    split at h
    · exact absurd h (by simp)
    · rename_i hbid
      obtain ⟨c, hfind, hty, hbcs, hle, holt, hform⟩ := hscan hbid
      have core : out.m_size =
            (allocScan b size alignment granularity).best_aligned_size ∧
          out.m_offset = (allocScan b size alignment granularity).best_offset := by
        split at h
        · split at h
          · exact Option.noConfusion h
          · injection h with h2
            rw [Prod.mk.injEq] at h2
            obtain ⟨ho, -⟩ := h2
            subst ho
            exact ⟨rfl, rfl⟩
        · injection h with h2
          rw [Prod.mk.injEq] at h2
          obtain ⟨ho, -⟩ := h2
          subst ho
          exact ⟨rfl, rfl⟩
      obtain ⟨hsz, hoff⟩ := core
      refine ⟨(allocScan b size alignment granularity).best_fit_id, c, hfind, hty, ?_, ?_, ?_, ?_⟩
      · rw [hsz]; exact hle
      · rw [hsz, hoff, hform]
      · rw [hoff]; exact holt
      · intro hco hsmall
        have heq : out.m_size = out.m_offset - c.m_offset + size := by
          rw [hsz, hform, hoff.symm]
          exact scan_aligned_size_eq c out.m_offset size hco hsmall (hoff ▸ holt)
        refine ⟨heq, ?_, ?_⟩
        · unfold flush_memory
          rw [heq]
        · intro hpad
          have : c.m_offset < out.m_offset := by omega
          exact Nat.add_lt_add_right this _

/-- Witness for `c10_token_size_is_padding_plus_size`: requesting 10 bytes at
alignment 8 from `c10_block` yields the token (offset 8, size 13). -/
theorem c10_witness :
    ((DMemBlock.create 100 false).allocate 5 1 true 1 SingleAllocation.null).map
        Prod.snd = some c10_block ∧
    c10_block.allocate 10 8 true 1 SingleAllocation.null = some (c10_out, c10_block') ∧
    (∃ id c, mapFind c10_block.m_chunks id = some c ∧ c.m_ty = SubchunkType.Free ∧
      c10_out.m_size ≤ c.m_size ∧
      c10_out.m_size = scan_aligned_size c c10_out.m_offset 10 ∧
      c10_out.m_offset < U64 ∧
      (c.m_offset ≤ c10_out.m_offset → c10_out.m_offset - c.m_offset + 10 < U64 →
        c10_out.m_size = c10_out.m_offset - c.m_offset + 10 ∧
        flush_memory c10_out = ⟨c10_out.m_offset, c10_out.m_offset - c.m_offset + 10⟩ ∧
        (0 < c10_out.m_offset - c.m_offset →
          c.m_offset + c10_out.m_size < c10_out.m_offset + c10_out.m_size))) :=
  ⟨by decide, by decide,
    c10_token_size_is_padding_plus_size c10_block 10 8 true 1 SingleAllocation.null
      c10_out c10_block' (by decide) (by decide)⟩

/-! ## Partition invariant (claim C2): map lemmas -/
lemma mapFind_insert (m : Chunks) (k : Nat) (v : Subchunk) (j : Nat) :
    mapFind (mapInsert m k v) j = if j = k then some v else mapFind m j := by
  induction m with
  | nil =>
    rw [mapInsert, mapFind_cons]
  | cons q t ih =>
    obtain ⟨k', v'⟩ := q
    rw [mapInsert]
    by_cases h1 : k < k'
    · rw [if_pos h1, mapFind_cons, mapFind_cons]
    · rw [if_neg h1]
      by_cases h2 : k = k'
      · subst h2
        rw [if_pos rfl, mapFind_cons, mapFind_cons]
        by_cases h3 : j = k
        · rw [if_pos h3, if_pos h3]
        · rw [if_neg h3, if_neg h3, if_neg h3]
      · rw [if_neg h2, mapFind_cons, mapFind_cons, ih]
        by_cases h3 : j = k
        · have hne : ¬(j = k') := fun he => h2 (h3.symm.trans he)
          rw [if_neg hne, if_pos h3, if_pos h3]
        · by_cases h4 : j = k'
          · rw [if_pos h4, if_neg h3, if_pos h4]
          · rw [if_neg h4, if_neg h3, if_neg h3, if_neg h4]

lemma mapFind_erase (m : Chunks) (k j : Nat) :
    mapFind (mapErase m k) j = if j = k then none else mapFind m j := by
  induction m with
  | nil =>
    rw [mapErase]
    show mapFind [] j = _
    split <;> rfl
  | cons q t ih =>
    obtain ⟨k', v'⟩ := q
    rw [mapErase]
    by_cases h1 : k' = k
    · rw [if_pos h1, ih, mapFind_cons]
      by_cases h2 : j = k
      · rw [if_pos h2, if_pos h2]
      · have hne : ¬(j = k') := fun he => h2 (he.trans h1)
        rw [if_neg h2, if_neg h2, if_neg hne]
    · rw [if_neg h1, mapFind_cons, mapFind_cons, ih]
      by_cases h2 : j = k'
      · have hjk : ¬(j = k) := fun he => h1 (h2.symm.trans he)
        rw [if_pos h2, if_neg hjk, if_pos h2]
      · by_cases h3 : j = k
        · rw [if_neg h2, if_pos h3, if_pos h3]
        · rw [if_neg h2, if_neg h3, if_neg h3, if_neg h2]

lemma mapErase_sublist (m : Chunks) (k : Nat) : List.Sublist (mapErase m k) m := by
  induction m with
  | nil => exact List.Sublist.refl _
  | cons q t ih =>
    obtain ⟨k', v'⟩ := q
    rw [mapErase]
    split
    · exact ih.trans (List.sublist_cons_self _ _)
    · exact List.Sublist.cons₂ _ ih

lemma sortedKeys_nodup (m : Chunks) (h : sortedKeys m) :
    (List.map Prod.fst m).Nodup :=
  h.imp Nat.ne_of_lt

lemma mem_keys_mapInsert (m : Chunks) (k : Nat) (v : Subchunk) (j : Nat)
    (h : j ∈ List.map Prod.fst (mapInsert m k v)) :
    j = k ∨ j ∈ List.map Prod.fst m := by
  induction m with
  | nil =>
    rw [mapInsert] at h
    simp at h
    exact Or.inl h
  | cons q t ih =>
    obtain ⟨k', v'⟩ := q
    rw [mapInsert] at h
    by_cases h1 : k < k'
    · rw [if_pos h1] at h
      simp only [List.map_cons, List.mem_cons] at h ⊢
      tauto
    · rw [if_neg h1] at h
      by_cases h2 : k = k'
      · rw [if_pos h2] at h
        simp only [List.map_cons, List.mem_cons] at h ⊢
        tauto
      · rw [if_neg h2] at h
        simp only [List.map_cons, List.mem_cons] at h ⊢
        rcases h with h | h
        · tauto
        · rcases ih h with h3 | h3 <;> tauto

lemma sortedKeys_insert (m : Chunks) (k : Nat) (v : Subchunk)
    (h : sortedKeys m) : sortedKeys (mapInsert m k v) := by
  induction m with
  | nil =>
    rw [mapInsert]
    exact List.pairwise_singleton _ _
  | cons q t ih =>
    obtain ⟨k', v'⟩ := q
    rw [sortedKeys, List.map_cons, List.pairwise_cons] at h
    obtain ⟨hk', ht⟩ := h
    rw [mapInsert]
    by_cases h1 : k < k'
    · rw [if_pos h1]
      rw [sortedKeys, List.map_cons, List.map_cons, List.pairwise_cons]
      refine ⟨?_, ?_⟩
      · intro j hj
        rcases List.mem_cons.mp hj with h2 | h2
        · exact h2 ▸ h1
        · exact lt_trans h1 (hk' j h2)
      · rw [List.pairwise_cons]
        exact ⟨hk', ht⟩
    · rw [if_neg h1]
      by_cases h2 : k = k'
      · rw [if_pos h2]
        rw [sortedKeys, List.map_cons, List.pairwise_cons]
        exact ⟨fun j hj => h2 ▸ hk' j hj, ht⟩
      · rw [if_neg h2]
        rw [sortedKeys, List.map_cons, List.pairwise_cons]
        refine ⟨?_, ih ht⟩
        intro j hj
        rcases mem_keys_mapInsert t k v j hj with h3 | h3
        · subst h3
          omega
        · exact hk' j h3

lemma sortedKeys_erase (m : Chunks) (k : Nat) (h : sortedKeys m) :
    sortedKeys (mapErase m k) := by
  unfold sortedKeys at h ⊢
  exact h.sublist (List.Sublist.map Prod.fst (mapErase_sublist m k))

lemma walk_cons_some (m : Chunks) (p off i nxt : Nat) (rest : List Nat)
    (r : Nat × Nat) (h : walk m p off (i :: rest) nxt = some r) :
    ∃ c, mapFind m i = some c ∧ c.m_offset = off ∧ c.m_prev = p ∧
      c.m_next = headOr rest nxt ∧ walk m i (off + c.m_size) rest nxt = some r := by
  rw [walk] at h
  cases hf : mapFind m i with
  | none =>
    rw [hf] at h
    simp only [] at h
    exact Option.noConfusion h
  | some c =>
    rw [hf] at h
    simp only [] at h
    split at h
    · rename_i hcond
      exact ⟨c, rfl, hcond.1, hcond.2.1, hcond.2.2, h⟩
    · exact Option.noConfusion h

lemma walk_cons_intro (m : Chunks) (p off i nxt : Nat) (rest : List Nat)
    (c : Subchunk) (h1 : mapFind m i = some c) (h2 : c.m_offset = off)
    (h3 : c.m_prev = p) (h4 : c.m_next = headOr rest nxt) :
    walk m p off (i :: rest) nxt = walk m i (off + c.m_size) rest nxt := by
  rw [walk, h1]
  simp only []
  rw [if_pos ⟨h2, h3, h4⟩]

lemma headOr_append (xs ys : List Nat) (d : Nat) :
    headOr (xs ++ ys) d = headOr xs (headOr ys d) := by
  cases xs <;> rfl

lemma walk_append (m : Chunks) (xs ys : List Nat) :
    ∀ (p off nxt : Nat),
      walk m p off (xs ++ ys) nxt =
        (walk m p off xs (headOr ys nxt)).bind (fun r => walk m r.1 r.2 ys nxt) := by
  induction xs with
  | nil =>
    intro p off nxt
    rfl
  | cons i rest ih =>
    intro p off nxt
    rw [List.cons_append, walk, walk, headOr_append]
    cases hf : mapFind m i with
    | none => rfl
    | some c =>
      simp only []
      split
      · exact ih _ _ _
      · rfl

/-- Walk results only depend on the looked-up entries. -/
lemma walk_congr (m m' : Chunks) (ids : List Nat)
    (h : ∀ i ∈ ids, mapFind m' i = mapFind m i) :
    ∀ (p off nxt : Nat), walk m' p off ids nxt = walk m p off ids nxt := by
  induction ids with
  | nil => intro p off nxt; rfl
  | cons i rest ih =>
    intro p off nxt
    rw [walk, walk, h i (List.mem_cons_self _ _)]
    cases mapFind m i with
    | none => rfl
    | some c =>
      simp only []
      split
      · exact ih (fun j hj => h j (List.mem_cons_of_mem _ hj)) _ _ _
      · rfl

/-- Walk results only depend on the looked-up entries' structural fields. -/
lemma walk_congr_struct (m m' : Chunks) (ids : List Nat)
    (h : ∀ i ∈ ids, optStructEq (mapFind m' i) (mapFind m i)) :
    ∀ (p off nxt : Nat), walk m' p off ids nxt = walk m p off ids nxt := by
  induction ids with
  | nil => intro p off nxt; rfl
  | cons i rest ih =>
    intro p off nxt
    have hi := h i (List.mem_cons_self _ _)
    rw [walk, walk]
    cases hf' : mapFind m' i with
    | none =>
      cases hf : mapFind m i with
      | none => rfl
      | some c =>
        rw [hf', hf] at hi
        exact absurd hi not_false
    | some c' =>
      cases hf : mapFind m i with
      | none =>
        rw [hf', hf] at hi
        exact absurd hi not_false
      | some c =>
        rw [hf', hf] at hi
        obtain ⟨hsz, hoff, hprev, hnext⟩ := hi
        simp only [hsz, hoff, hprev, hnext]
        split
        · exact ih (fun j hj => h j (List.mem_cons_of_mem _ hj)) _ _ _
        · rfl

lemma optStructEq_refl (o : Option Subchunk) : optStructEq o o := by
  cases o with
  | none => trivial
  | some c => exact ⟨rfl, rfl, rfl, rfl⟩

/-- Replacing one present entry by a structurally equal chunk (same offset,
size and links — only the kind may differ) preserves well-formedness. -/
lemma wfChunks_insert_structEq (m : Chunks) (cap counter : Nat) (id : Nat)
    (c c' : Subchunk) (hfind : mapFind m id = some c) (hstruct : structEq c' c)
    (h : wfChunks m cap counter) : wfChunks (mapInsert m id c') cap counter := by
  obtain ⟨hsorted, ids, hnd, h0, hlt, hkeys, pend, hwalk⟩ := h
  refine ⟨sortedKeys_insert _ _ _ hsorted, ids, hnd, h0, hlt, ?_, pend, ?_⟩
  · intro k
    rw [mapFind_insert]
    split
    · rename_i he
      subst he
      simp only [Option.isSome_some, true_iff]
      exact (hkeys k).mp (by rw [hfind]; rfl)
    · exact hkeys k
  · rw [walk_congr_struct m (mapInsert m id c') ids ?_ 0 0 0]
    · exact hwalk
    · intro i hi
      rw [mapFind_insert]
      split
      · rename_i he
        subst he
        rw [hfind]
        exact hstruct
      · exact optStructEq_refl _

lemma headOr_cons (i : Nat) (rest : List Nat) (d : Nat) : headOr (i :: rest) d = i := rfl

lemma headOr_nil (d : Nat) : headOr [] d = d := rfl

lemma mapGetD_of_find (m : Chunks) (k : Nat) (c : Subchunk)
    (h : mapFind m k = some c) : mapGetD m k = c := by
  rw [mapGetD, h]
  rfl

/-- Surgery of `merge_free_chunks` on a well-formed chain: if the chain reads
`A ++ li :: ri :: B`, merging `ri` into `li` yields a well-formed chain reading
`A ++ li :: B` with the same capacity, key-set minus `ri`, and counter. -/
lemma merge_surgery (m : Chunks) (cap counter : Nat) (A B : List Nat) (li ri : Nat)
    (hsorted : sortedKeys m)
    (hnd : (A ++ li :: ri :: B).Nodup)
    (h0 : 0 ∉ A ++ li :: ri :: B)
    (hlt : ∀ i ∈ A ++ li :: ri :: B, i < counter)
    (hkeys : ∀ k, (mapFind m k).isSome ↔ k ∈ A ++ li :: ri :: B)
    (hchain : chainOk m cap (A ++ li :: ri :: B)) :
    sortedKeys (merge_free_chunks m li ri) ∧
    (A ++ li :: B).Nodup ∧ 0 ∉ A ++ li :: B ∧ (∀ i ∈ A ++ li :: B, i < counter) ∧
    (∀ k, (mapFind (merge_free_chunks m li ri) k).isSome ↔ k ∈ A ++ li :: B) ∧
    chainOk (merge_free_chunks m li ri) cap (A ++ li :: B) := by
  -- distinctness bookkeeping
  have hnd' := List.nodup_append.mp hnd
  have hAdisj : ∀ i ∈ A, ¬(i ∈ li :: ri :: B) := fun i hi hm => hnd'.2.2 hi hm
  have hndC : (li :: ri :: B).Nodup := hnd'.2.1
  have hli_mem : li ∉ ri :: B := (List.nodup_cons.mp hndC).1
  have hndR : (ri :: B).Nodup := (List.nodup_cons.mp hndC).2
  have hli_ri : li ≠ ri := fun he => hli_mem (he ▸ List.mem_cons_self ri B)
  have hli_B : li ∉ B := fun hb => hli_mem (List.mem_cons_of_mem _ hb)
  have hri_B : ri ∉ B := (List.nodup_cons.mp hndR).1
  have hA_li : li ∉ A := fun hm => hAdisj li hm (List.mem_cons_self _ _)
  have hA_ri : ri ∉ A := fun hm =>
    hAdisj ri hm (List.mem_cons_of_mem _ (List.mem_cons_self _ _))
  have hAB : ∀ i ∈ A, i ∉ B := fun i hi hb =>
    hAdisj i hi (List.mem_cons_of_mem _ (List.mem_cons_of_mem _ hb))
  -- the new id list is a sublist of the old one
  have hsub : (A ++ li :: B).Sublist (A ++ li :: ri :: B) :=
    (List.append_sublist_append_left A).mpr
      (List.Sublist.cons₂ li (List.sublist_cons_self ri B))
  have hnd2 : (A ++ li :: B).Nodup := List.Nodup.sublist hsub hnd
  have h02 : 0 ∉ A ++ li :: B := fun hm => h0 (hsub.subset hm)
  have hlt2 : ∀ i ∈ A ++ li :: B, i < counter := fun i hi => hlt i (hsub.subset hi)
  -- decompose the chain
  obtain ⟨pend, hw⟩ := hchain
  rw [walk_append, headOr_cons] at hw
  cases hA : walk m 0 0 A li with
  | none =>
    rw [hA] at hw
    exact Option.noConfusion hw
  | some rA =>
    rw [hA, Option.some_bind] at hw
    obtain ⟨lc, hlc, hlcoff, hlcprev, hlcnext, hw2⟩ := walk_cons_some _ _ _ _ _ _ _ hw
    rw [headOr_cons] at hlcnext
    obtain ⟨rc, hrc, hrcoff, hrcprev, hrcnext, hw3⟩ := walk_cons_some _ _ _ _ _ _ _ hw2
    -- unfold the merge
    have hgl : mapGetD m li = lc := mapGetD_of_find _ _ _ hlc
    have hgr : mapGetD m ri = rc := mapGetD_of_find _ _ _ hrc
    unfold merge_free_chunks
    rw [hgr, hgl]
    simp only []
    cases B with
    | nil =>
      have hrn : rc.m_next = 0 := hrcnext
      rw [hrn, if_neg (by simp)]
      have hfind' : ∀ k, mapFind (mapErase (mapInsert m li
          { lc with m_next := 0, m_size := lc.m_size + rc.m_size }) ri) k =
          if k = ri then none
          else if k = li then
            some { lc with m_next := 0, m_size := lc.m_size + rc.m_size }
          else mapFind m k := by
        intro k
        rw [mapFind_erase, mapFind_insert]
      refine ⟨sortedKeys_erase _ _ (sortedKeys_insert _ _ _ hsorted), hnd2, h02, hlt2, ?_, ?_⟩
      · intro k
        rw [hfind' k]
        by_cases hk1 : k = ri
        · rw [if_pos hk1]
          simp only [Option.isSome_none, Bool.false_eq_true, false_iff]
          intro hm
          rw [hk1] at hm
          rcases List.mem_append.mp hm with h | h
          · exact hA_ri h
          · rcases List.mem_cons.mp h with h | h
            · exact hli_ri h.symm
            · exact List.not_mem_nil ri h
        · rw [if_neg hk1]
          by_cases hk2 : k = li
          · rw [if_pos hk2]
            simp only [Option.isSome_some, true_iff]
            rw [hk2]
            exact List.mem_append_right A (List.mem_cons_self _ _)
          · rw [if_neg hk2, hkeys k]
            simp only [List.mem_append, List.mem_cons, List.not_mem_nil, or_false]
            constructor
            · rintro (h | h | h)
              · exact Or.inl h
              · exact Or.inr h
              · exact absurd h hk1
            · rintro (h | h)
              · exact Or.inl h
              · exact Or.inr (Or.inl h)
      · -- the chain: A then li, ending at cap
        rw [walk] at hw3
        simp only [Option.some.injEq, Prod.mk.injEq] at hw3
        have hcongrA : ∀ i ∈ A, mapFind (mapErase (mapInsert m li
            { lc with m_next := 0, m_size := lc.m_size + rc.m_size }) ri) i =
            mapFind m i := by
          intro i hi
          rw [hfind' i, if_neg (fun (he : i = ri) => hA_ri (he ▸ hi)),
            if_neg (fun (he : i = li) => hA_li (he ▸ hi))]
        refine ⟨li, ?_⟩
        rw [walk_append, headOr_cons, walk_congr m _ A hcongrA 0 0 li, hA,
          Option.some_bind]
        rw [walk_cons_intro _ _ _ _ _ _
            { lc with m_next := 0, m_size := lc.m_size + rc.m_size }
            (by rw [hfind' li, if_neg hli_ri, if_pos rfl])
            hlcoff hlcprev (headOr_nil 0).symm]
        rw [walk]
        rw [show cap = rA.2 + lc.m_size + rc.m_size from hw3.2.symm]
        rw [Nat.add_assoc]
    | cons b0 B' =>
      have hrn : rc.m_next = b0 := by rw [hrcnext, headOr_cons]
      have hb0_li : b0 ≠ li := fun he => hli_B (he ▸ List.mem_cons_self _ _)
      have hb0_ri : b0 ≠ ri := fun he => hri_B (he ▸ List.mem_cons_self _ _)
      have hb0_A : b0 ∉ A := fun hm => hAB b0 hm (List.mem_cons_self _ _)
      have hb0_B' : b0 ∉ B' := (List.nodup_cons.mp ((List.nodup_cons.mp hndR).2)).1
      have hb0_ne0 : b0 ≠ 0 := by
        intro he
        exact h0 (he ▸ List.mem_append_right A (List.mem_cons_of_mem _
          (List.mem_cons_of_mem _ (List.mem_cons_self _ _))))
      -- the successor chunk of ri
      obtain ⟨cb, hcb, hcboff, hcbprev, hcbnext, hw4⟩ := walk_cons_some _ _ _ _ _ _ _ hw3
      have hcb1 : mapFind (mapInsert m li
          { lc with m_next := b0, m_size := lc.m_size + rc.m_size }) b0 =
          some cb := by
        rw [mapFind_insert, if_neg hb0_li]
        exact hcb
      rw [hrn, if_pos hb0_ne0, mapGetD_of_find _ _ _ hcb1]
      have hfind' : ∀ k, mapFind (mapErase (mapInsert (mapInsert m li
          { lc with m_next := b0, m_size := lc.m_size + rc.m_size }) b0
          { cb with m_prev := li }) ri) k =
          if k = ri then none
          else if k = b0 then some { cb with m_prev := li }
          else if k = li then
            some { lc with m_next := b0, m_size := lc.m_size + rc.m_size }
          else mapFind m k := by
        intro k
        rw [mapFind_erase, mapFind_insert, mapFind_insert]
      refine ⟨sortedKeys_erase _ _ (sortedKeys_insert _ _ _
        (sortedKeys_insert _ _ _ hsorted)), hnd2, h02, hlt2, ?_, ?_⟩
      · intro k
        rw [hfind' k]
        by_cases hk1 : k = ri
        · rw [if_pos hk1]
          simp only [Option.isSome_none, Bool.false_eq_true, false_iff]
          intro hm
          rw [hk1] at hm
          rcases List.mem_append.mp hm with h | h
          · exact hA_ri h
          · rcases List.mem_cons.mp h with h | h
            · exact hli_ri h.symm
            · exact hri_B h
        · rw [if_neg hk1]
          by_cases hk2 : k = b0
          · rw [if_pos hk2]
            simp only [Option.isSome_some, true_iff]
            rw [hk2]
            exact List.mem_append_right A (List.mem_cons_of_mem _ (List.mem_cons_self _ _))
          · rw [if_neg hk2]
            by_cases hk3 : k = li
            · rw [if_pos hk3]
              simp only [Option.isSome_some, true_iff]
              rw [hk3]
              exact List.mem_append_right A (List.mem_cons_self _ _)
            · rw [if_neg hk3, hkeys k]
              simp only [List.mem_append, List.mem_cons]
              constructor
              · rintro (h | h | h | h | h)
                · exact Or.inl h
                · exact Or.inr (Or.inl h)
                · exact absurd h hk1
                · exact Or.inr (Or.inr (Or.inl h))
                · exact Or.inr (Or.inr (Or.inr h))
              · rintro (h | h | h | h)
                · exact Or.inl h
                · exact Or.inr (Or.inl h)
                · exact Or.inr (Or.inr (Or.inr (Or.inl h)))
                · exact Or.inr (Or.inr (Or.inr (Or.inr h)))
      · have hcongrA : ∀ i ∈ A, mapFind (mapErase (mapInsert (mapInsert m li
            { lc with m_next := b0, m_size := lc.m_size + rc.m_size }) b0
            { cb with m_prev := li }) ri) i = mapFind m i := by
          intro i hi
          rw [hfind' i, if_neg (fun (he : i = ri) => hA_ri (he ▸ hi)),
            if_neg (fun (he : i = b0) => hb0_A (he ▸ hi)),
            if_neg (fun (he : i = li) => hA_li (he ▸ hi))]
        have hcongrB' : ∀ i ∈ B', mapFind (mapErase (mapInsert (mapInsert m li
            { lc with m_next := b0, m_size := lc.m_size + rc.m_size }) b0
            { cb with m_prev := li }) ri) i = mapFind m i := by
          intro i hi
          have hi_li : i ≠ li := fun he => hli_B (he ▸ List.mem_cons_of_mem _ hi)
          have hi_ri : i ≠ ri := fun he => hri_B (he ▸ List.mem_cons_of_mem _ hi)
          have hi_b0 : i ≠ b0 := fun he => hb0_B' (he ▸ hi)
          rw [hfind' i, if_neg hi_ri, if_neg hi_b0, if_neg hi_li]
        refine ⟨pend, ?_⟩
        rw [walk_append, headOr_cons, walk_congr m _ A hcongrA 0 0 li, hA,
          Option.some_bind]
        rw [walk_cons_intro _ _ _ _ _ _
            { lc with m_next := b0, m_size := lc.m_size + rc.m_size }
            (by rw [hfind' li, if_neg hli_ri, if_neg (fun he => hb0_li he.symm),
              if_pos rfl])
            hlcoff hlcprev (headOr_cons b0 B' 0).symm]
        rw [walk_cons_intro _ _ _ _ _ _ { cb with m_prev := li }
            (by rw [hfind' b0, if_neg hb0_ri, if_pos rfl])
            (by show cb.m_offset = rA.2 + (lc.m_size + rc.m_size); rw [hcboff]; omega)
            rfl
            (by show cb.m_next = headOr B' 0; exact hcbnext)]
        rw [walk_congr m _ B' hcongrB' b0 (rA.2 + (lc.m_size + rc.m_size) + cb.m_size) 0]
        rw [show rA.2 + (lc.m_size + rc.m_size) + cb.m_size =
          rA.2 + lc.m_size + rc.m_size + cb.m_size by omega]
        exact hw4

lemma walk_last (m : Chunks) : ∀ (xs : List Nat) (p off nxt : Nat) (r : Nat × Nat),
    walk m p off xs nxt = some r → (xs = [] ∧ r.1 = p) ∨ ∃ ys, xs = ys ++ [r.1] := by
  intro xs
  induction xs with
  | nil =>
    intro p off nxt r h
    rw [walk] at h
    simp only [Option.some.injEq] at h
    exact Or.inl ⟨rfl, by rw [← h]⟩
  | cons i rest ih =>
    intro p off nxt r h
    obtain ⟨c, _, _, _, _, hrest⟩ := walk_cons_some _ _ _ _ _ _ _ h
    rcases ih _ _ _ _ hrest with ⟨hnil, hr⟩ | ⟨ys, hys⟩
    · subst hnil
      exact Or.inr ⟨[], by rw [hr]; rfl⟩
    · exact Or.inr ⟨i :: ys, by rw [hys]; rfl⟩

/-- Common tail of `DMemBlock::free`: the conditional merge with the chain
predecessor `pA` of `id`, starting from a well-formed chain `A ++ id :: B1`
where `A` ends in `pA` (or is empty and `pA = 0`). -/
lemma second_merge_aux (m1 : Chunks) (cap counter : Nat) (A B1 : List Nat)
    (id pA : Nat)
    (hsorted : sortedKeys m1)
    (hnd : (A ++ id :: B1).Nodup)
    (h0 : 0 ∉ A ++ id :: B1)
    (hlt : ∀ i ∈ A ++ id :: B1, i < counter)
    (hkeys : ∀ k, (mapFind m1 k).isSome ↔ k ∈ A ++ id :: B1)
    (hchain : chainOk m1 cap (A ++ id :: B1))
    (hlast : (A = [] ∧ pA = 0) ∨ ∃ A'', A = A'' ++ [pA]) :
    wfChunks (if pA ≠ 0 ∧ (mapGetD m1 pA).m_ty = SubchunkType.Free
      then merge_free_chunks m1 pA id else m1) cap counter := by
  by_cases hc : pA ≠ 0 ∧ (mapGetD m1 pA).m_ty = SubchunkType.Free
  · rw [if_pos hc]
    rcases hlast with ⟨hA, hpA⟩ | ⟨A'', hA⟩
    · exact absurd hpA hc.1
    · subst hA
      have hre : (A'' ++ [pA]) ++ id :: B1 = A'' ++ pA :: id :: B1 := by
        rw [List.append_assoc]
        rfl
      rw [hre] at hnd h0 hlt hkeys hchain
      obtain ⟨hs, hn, h0', hl, hk, hc'⟩ :=
        merge_surgery m1 cap counter A'' B1 pA id hsorted hnd h0 hlt hkeys hchain
      exact ⟨hs, A'' ++ pA :: B1, hn, h0', hl, hk, hc'⟩
  · rw [if_neg hc]
    exact ⟨hsorted, A ++ id :: B1, hnd, h0, hlt, hkeys, hchain⟩

/-- The body of `DMemBlock::free` preserves well-formedness of the chunk map. -/
lemma wfChunks_free_chunks (m : Chunks) (cap counter id : Nat) (c : Subchunk)
    (hfind : mapFind m id = some c) (h : wfChunks m cap counter) :
    wfChunks
      (if c.m_prev ≠ 0 ∧
          (mapGetD
            (if c.m_next ≠ 0 ∧
                (mapGetD (mapInsert m id { c with m_ty := SubchunkType.Free })
                  c.m_next).m_ty = SubchunkType.Free
             then merge_free_chunks (mapInsert m id { c with m_ty := SubchunkType.Free })
               id c.m_next
             else mapInsert m id { c with m_ty := SubchunkType.Free })
            c.m_prev).m_ty = SubchunkType.Free
       then merge_free_chunks
          (if c.m_next ≠ 0 ∧
              (mapGetD (mapInsert m id { c with m_ty := SubchunkType.Free })
                c.m_next).m_ty = SubchunkType.Free
           then merge_free_chunks (mapInsert m id { c with m_ty := SubchunkType.Free })
             id c.m_next
           else mapInsert m id { c with m_ty := SubchunkType.Free })
          c.m_prev id
       else
        (if c.m_next ≠ 0 ∧
            (mapGetD (mapInsert m id { c with m_ty := SubchunkType.Free })
              c.m_next).m_ty = SubchunkType.Free
         then merge_free_chunks (mapInsert m id { c with m_ty := SubchunkType.Free })
           id c.m_next
         else mapInsert m id { c with m_ty := SubchunkType.Free }))
      cap counter := by
  obtain ⟨hsorted, ids, hnd, h0, hlt, hkeys, pend, hw⟩ := h
  have hid : id ∈ ids := (hkeys id).mp (by rw [hfind]; rfl)
  obtain ⟨A, B, hAB⟩ := List.append_of_mem hid
  subst hAB
  -- facts about the kind-flipped map
  have hfind0 : ∀ k, mapFind (mapInsert m id { c with m_ty := SubchunkType.Free }) k =
      if k = id then some { c with m_ty := SubchunkType.Free } else mapFind m k :=
    fun k => mapFind_insert m id _ k
  have hsorted0 : sortedKeys (mapInsert m id { c with m_ty := SubchunkType.Free }) :=
    sortedKeys_insert _ _ _ hsorted
  have hkeys0 : ∀ k,
      (mapFind (mapInsert m id { c with m_ty := SubchunkType.Free }) k).isSome ↔
        k ∈ A ++ id :: B := by
    intro k
    rw [hfind0 k]
    by_cases hk : k = id
    · rw [if_pos hk, hk]
      simp only [Option.isSome_some, true_iff]
      exact List.mem_append_right A (List.mem_cons_self _ _)
    · rw [if_neg hk]
      exact hkeys k
  have hw0 : walk (mapInsert m id { c with m_ty := SubchunkType.Free }) 0 0
      (A ++ id :: B) 0 = some (pend, cap) := by
    rw [walk_congr_struct m _ (A ++ id :: B) ?_ 0 0 0]
    · exact hw
    · intro i hi
      rw [hfind0 i]
      by_cases hk : i = id
      · rw [if_pos hk, hk, hfind]
        exact ⟨rfl, rfl, rfl, rfl⟩
      · rw [if_neg hk]
        exact optStructEq_refl _
  -- decompose the flipped chain around id
  have hw0' := hw0
  rw [walk_append, headOr_cons] at hw0'
  cases hA : walk (mapInsert m id { c with m_ty := SubchunkType.Free }) 0 0 A id with
  | none =>
    rw [hA] at hw0'
    exact Option.noConfusion hw0'
  | some rA =>
    rw [hA, Option.some_bind] at hw0'
    obtain ⟨c0', hfc0', hoff', hprev', hnext', hwB⟩ := walk_cons_some _ _ _ _ _ _ _ hw0'
    have hc0eq : c0' = { c with m_ty := SubchunkType.Free } := by
      have hthis := hfind0 id
      rw [if_pos rfl] at hthis
      exact Option.some.inj (hfc0'.symm.trans hthis)
    subst hc0eq
    have hBnext : c.m_next = headOr B 0 := hnext'
    have hprev : c.m_prev = rA.1 := hprev'
    -- last-of-A characterization for the second merge
    have hlast : (A = [] ∧ c.m_prev = 0) ∨ ∃ A'', A = A'' ++ [c.m_prev] := by
      rcases walk_last _ A 0 0 id rA hA with ⟨hnil, hp⟩ | ⟨ys, hys⟩
      · exact Or.inl ⟨hnil, by rw [hprev, hp]⟩
      · exact Or.inr ⟨ys, by rw [hprev]; exact hys⟩
    by_cases hc1 : c.m_next ≠ 0 ∧
        (mapGetD (mapInsert m id { c with m_ty := SubchunkType.Free })
          c.m_next).m_ty = SubchunkType.Free
    · rw [if_pos hc1]
      -- the successor exists: B = nid :: B'
      cases B with
      | nil =>
        rw [headOr_nil] at hBnext
        exact absurd hBnext hc1.1
      | cons nid B' =>
        rw [headOr_cons] at hBnext
        rw [← hBnext] at hnd h0 hlt hkeys0 hw0
        obtain ⟨hs1, hn1, h01, hl1, hk1, hc1'⟩ :=
          merge_surgery (mapInsert m id { c with m_ty := SubchunkType.Free })
            cap counter A B' id c.m_next hsorted0 hnd h0 hlt hkeys0 ⟨pend, hw0⟩
        exact second_merge_aux _ cap counter A B' id c.m_prev hs1 hn1 h01 hl1 hk1
          hc1' hlast
    · rw [if_neg hc1]
      exact second_merge_aux _ cap counter A B id c.m_prev hsorted0 hnd h0 hlt
        hkeys0 ⟨pend, hw0⟩ hlast

/-- Freeing any id via `DMemBlock::free` preserves block well-formedness. -/
lemma wf_free (b : DMemBlock) (id : Nat) (hb : wfb b) : wfb (b.free id) := by
  obtain ⟨hcnt, hwf⟩ := hb
  unfold DMemBlock.free
  cases hfind : mapFind b.m_chunks id with
  | none => exact ⟨hcnt, hwf⟩
  | some c =>
    exact ⟨hcnt, wfChunks_free_chunks b.m_chunks b.m_size b.m_counter id c hfind hwf⟩

/-- The exact-fit branch of `DMemBlock::allocate` preserves chunk-map
well-formedness: flipping one present chunk's kind is a structural no-op. -/
lemma wfChunks_flip (m : Chunks) (cap counter bid : Nat) (kind : SubchunkType)
    (c : Subchunk) (hfind : mapFind m bid = some c) (h : wfChunks m cap counter) :
    wfChunks (flipChunk m bid kind) cap counter := by
  unfold flipChunk
  rw [mapGetD_of_find _ _ _ hfind]
  exact wfChunks_insert_structEq m cap counter bid c _ hfind ⟨rfl, rfl, rfl, rfl⟩ h

/-- Surgery of `splitChunks` on a well-formed chain: subdividing the chunk
`bid` (of size at least `asz`) with a fresh nonzero child id inserts the child
right before `bid` in the chain, preserving the partition. -/
lemma split_surgery (m : Chunks) (cap counter : Nat) (A B : List Nat)
    (bid child asz : Nat) (kind : SubchunkType)
    (hsorted : sortedKeys m)
    (hnd : (A ++ bid :: B).Nodup)
    (h0 : 0 ∉ A ++ bid :: B)
    (hlt : ∀ i ∈ A ++ bid :: B, i < counter)
    (hkeys : ∀ k, (mapFind m k).isSome ↔ k ∈ A ++ bid :: B)
    (hchain : chainOk m cap (A ++ bid :: B))
    (hchild0 : child ≠ 0)
    (hchild_new : child ∉ A ++ bid :: B)
    (hchild_lt : child < counter)
    (hasz : asz ≤ (mapGetD m bid).m_size) :
    sortedKeys (splitChunks m bid child asz kind) ∧
    (A ++ child :: bid :: B).Nodup ∧ 0 ∉ A ++ child :: bid :: B ∧
    (∀ i ∈ A ++ child :: bid :: B, i < counter) ∧
    (∀ k, (mapFind (splitChunks m bid child asz kind) k).isSome ↔
      k ∈ A ++ child :: bid :: B) ∧
    chainOk (splitChunks m bid child asz kind) cap (A ++ child :: bid :: B) := by
  -- distinctness bookkeeping
  have hnd' := List.nodup_append.mp hnd
  have hAdisj : ∀ i ∈ A, ¬(i ∈ bid :: B) := fun i hi hm => hnd'.2.2 hi hm
  have hbid_B : bid ∉ B := (List.nodup_cons.mp hnd'.2.1).1
  have hA_bid : bid ∉ A := fun hm => hAdisj bid hm (List.mem_cons_self _ _)
  have hAB : ∀ i ∈ A, i ∉ B := fun i hi hb => hAdisj i hi (List.mem_cons_of_mem _ hb)
  have hch_A : child ∉ A := fun hm => hchild_new (List.mem_append_left _ hm)
  have hch_bid : child ≠ bid := fun he =>
    hchild_new (by rw [he]; exact List.mem_append_right A (List.mem_cons_self _ _))
  have hch_B : child ∉ B := fun hm =>
    hchild_new (List.mem_append_right A (List.mem_cons_of_mem _ hm))
  -- the new id list is a permutation of child :: old list
  have hperm : (A ++ child :: bid :: B).Perm (child :: (A ++ bid :: B)) :=
    List.perm_middle
  have hnd2 : (A ++ child :: bid :: B).Nodup := by
    rw [hperm.nodup_iff, List.nodup_cons]
    exact ⟨hchild_new, hnd⟩
  have h02 : 0 ∉ A ++ child :: bid :: B := by
    intro hm
    rcases List.mem_cons.mp (hperm.mem_iff.mp hm) with he | hm'
    · exact hchild0 he.symm
    · exact h0 hm'
  have hlt2 : ∀ i ∈ A ++ child :: bid :: B, i < counter := by
    intro i hi
    rcases List.mem_cons.mp (hperm.mem_iff.mp hi) with he | hm'
    · exact he ▸ hchild_lt
    · exact hlt i hm'
  -- decompose the chain around bid
  obtain ⟨pend, hw⟩ := hchain
  rw [walk_append, headOr_cons] at hw
  cases hA : walk m 0 0 A bid with
  | none =>
    rw [hA] at hw
    exact Option.noConfusion hw
  | some rA =>
    rw [hA, Option.some_bind] at hw
    obtain ⟨pc, hpc, hpcoff, hpcprev, hpcnext, hwB⟩ := walk_cons_some _ _ _ _ _ _ _ hw
    rw [mapGetD_of_find _ _ _ hpc] at hasz
    -- unfold the split into explicit inserts
    unfold splitChunks
    rw [mapGetD_of_find _ _ _ hpc]
    simp only []
    have hfind2 : ∀ k, mapFind (mapInsert (mapInsert m child { m_size := asz, m_offset := pc.m_offset, m_ty := kind, m_prev := pc.m_prev, m_next := bid }) bid { pc with m_prev := child, m_offset := pc.m_offset + asz, m_size := pc.m_size - asz }) k = if k = bid then some { pc with m_prev := child, m_offset := pc.m_offset + asz, m_size := pc.m_size - asz } else if k = child then some { m_size := asz, m_offset := pc.m_offset, m_ty := kind, m_prev := pc.m_prev, m_next := bid } else mapFind m k := by
      intro k
      rw [mapFind_insert, mapFind_insert]
    have hsorted2 : sortedKeys (mapInsert (mapInsert m child { m_size := asz, m_offset := pc.m_offset, m_ty := kind, m_prev := pc.m_prev, m_next := bid }) bid { pc with m_prev := child, m_offset := pc.m_offset + asz, m_size := pc.m_size - asz }) :=
      sortedKeys_insert _ _ _ (sortedKeys_insert _ _ _ hsorted)
    by_cases hp : pc.m_prev ≠ 0
    · rw [if_pos hp]
      -- A ends with the predecessor pc.m_prev
      rcases walk_last m A 0 0 bid rA hA with ⟨-, hr1⟩ | ⟨A'', hAeq⟩
      · exact absurd (hpcprev.trans hr1) hp
      · have hApA : A = A'' ++ [pc.m_prev] := by
          rw [hpcprev]
          exact hAeq
        have hA' := hA
        rw [hApA, walk_append, headOr_cons] at hA'
        cases hq : walk m 0 0 A'' pc.m_prev with
        | none =>
          rw [hq] at hA'
          exact Option.noConfusion hA'
        | some q =>
          rw [hq, Option.some_bind] at hA'
          obtain ⟨ca, hca, hcaoff, hcaprev, hcanext, hwlast⟩ :=
            walk_cons_some _ _ _ _ _ _ _ hA'
          rw [headOr_nil] at hcanext
          rw [walk] at hwlast
          have hrA2 : rA.2 = q.2 + ca.m_size := by
            rw [← Option.some.inj hwlast]
          have hpA_A : pc.m_prev ∈ A := by
            rw [hApA]
            exact List.mem_append_right A'' (List.mem_cons_self _ _)
          have hpA_bid : pc.m_prev ≠ bid := fun he => hA_bid (he ▸ hpA_A)
          have hpA_child : pc.m_prev ≠ child := fun he => hch_A (he ▸ hpA_A)
          have hpA_B : pc.m_prev ∉ B := hAB _ hpA_A
          have hndA : (A'' ++ [pc.m_prev]).Nodup := by
            rw [← hApA]
            exact hnd'.1
          have hA2pA : ∀ i ∈ A'', i ≠ pc.m_prev := fun i hi he =>
            (List.nodup_append.mp hndA).2.2 hi (List.mem_singleton.mpr he)
          have hgpp : mapGetD (mapInsert (mapInsert m child { m_size := asz, m_offset := pc.m_offset, m_ty := kind, m_prev := pc.m_prev, m_next := bid }) bid { pc with m_prev := child, m_offset := pc.m_offset + asz, m_size := pc.m_size - asz }) pc.m_prev = ca := by
            apply mapGetD_of_find
            rw [hfind2, if_neg hpA_bid, if_neg hpA_child]
            exact hca
          rw [hgpp]
          have hfind3 : ∀ k, mapFind (mapInsert (mapInsert (mapInsert m child { m_size := asz, m_offset := pc.m_offset, m_ty := kind, m_prev := pc.m_prev, m_next := bid }) bid { pc with m_prev := child, m_offset := pc.m_offset + asz, m_size := pc.m_size - asz }) pc.m_prev { ca with m_next := child }) k = if k = pc.m_prev then some { ca with m_next := child } else if k = bid then some { pc with m_prev := child, m_offset := pc.m_offset + asz, m_size := pc.m_size - asz } else if k = child then some { m_size := asz, m_offset := pc.m_offset, m_ty := kind, m_prev := pc.m_prev, m_next := bid } else mapFind m k := by
            intro k
            rw [mapFind_insert, hfind2]
          refine ⟨sortedKeys_insert _ _ _ hsorted2, hnd2, h02, hlt2, ?_, ?_⟩
          · intro k
            rw [hfind3 k]
            by_cases hk0 : k = pc.m_prev
            · rw [if_pos hk0]
              simp only [Option.isSome_some, true_iff]
              rw [hk0]
              exact List.mem_append_left _ hpA_A
            · rw [if_neg hk0]
              by_cases hk1 : k = bid
              · rw [if_pos hk1]
                simp only [Option.isSome_some, true_iff]
                rw [hk1]
                exact List.mem_append_right A (List.mem_cons_of_mem _ (List.mem_cons_self _ _))
              · rw [if_neg hk1]
                by_cases hk2 : k = child
                · rw [if_pos hk2]
                  simp only [Option.isSome_some, true_iff]
                  rw [hk2]
                  exact List.mem_append_right A (List.mem_cons_self _ _)
                · rw [if_neg hk2, hkeys k]
                  simp only [List.mem_append, List.mem_cons]
                  constructor
                  · rintro (h | h | h)
                    · exact Or.inl h
                    · exact Or.inr (Or.inr (Or.inl h))
                    · exact Or.inr (Or.inr (Or.inr h))
                  · rintro (h | h | h | h)
                    · exact Or.inl h
                    · exact absurd h hk2
                    · exact Or.inr (Or.inl h)
                    · exact Or.inr (Or.inr h)
          · refine ⟨pend, ?_⟩
            have hcongrA : ∀ i ∈ A'', mapFind (mapInsert (mapInsert (mapInsert m child { m_size := asz, m_offset := pc.m_offset, m_ty := kind, m_prev := pc.m_prev, m_next := bid }) bid { pc with m_prev := child, m_offset := pc.m_offset + asz, m_size := pc.m_size - asz }) pc.m_prev { ca with m_next := child }) i = mapFind m i := by
              intro i hi
              have hiA : i ∈ A := by
                rw [hApA]
                exact List.mem_append_left _ hi
              rw [hfind3 i, if_neg (hA2pA i hi),
                if_neg (fun (he : i = bid) => hA_bid (he ▸ hiA)),
                if_neg (fun (he : i = child) => hch_A (he ▸ hiA))]
            have hcongrB2 : ∀ i ∈ B, mapFind (mapInsert (mapInsert (mapInsert m child { m_size := asz, m_offset := pc.m_offset, m_ty := kind, m_prev := pc.m_prev, m_next := bid }) bid { pc with m_prev := child, m_offset := pc.m_offset + asz, m_size := pc.m_size - asz }) pc.m_prev { ca with m_next := child }) i = mapFind m i := by
              intro i hi
              rw [hfind3 i, if_neg (fun (he : i = pc.m_prev) => hpA_B (he ▸ hi)),
                if_neg (fun (he : i = bid) => hbid_B (he ▸ hi)),
                if_neg (fun (he : i = child) => hch_B (he ▸ hi))]
            have hre : A ++ child :: bid :: B = A'' ++ pc.m_prev :: child :: bid :: B := by
              rw [hApA, List.append_assoc]
              rfl
            rw [hre]
            calc walk (mapInsert (mapInsert (mapInsert m child { m_size := asz, m_offset := pc.m_offset, m_ty := kind, m_prev := pc.m_prev, m_next := bid }) bid { pc with m_prev := child, m_offset := pc.m_offset + asz, m_size := pc.m_size - asz }) pc.m_prev { ca with m_next := child }) 0 0 (A'' ++ pc.m_prev :: child :: bid :: B) 0
                = (walk (mapInsert (mapInsert (mapInsert m child { m_size := asz, m_offset := pc.m_offset, m_ty := kind, m_prev := pc.m_prev, m_next := bid }) bid { pc with m_prev := child, m_offset := pc.m_offset + asz, m_size := pc.m_size - asz }) pc.m_prev { ca with m_next := child }) 0 0 A'' (headOr (pc.m_prev :: child :: bid :: B) 0)).bind (fun r => walk (mapInsert (mapInsert (mapInsert m child { m_size := asz, m_offset := pc.m_offset, m_ty := kind, m_prev := pc.m_prev, m_next := bid }) bid { pc with m_prev := child, m_offset := pc.m_offset + asz, m_size := pc.m_size - asz }) pc.m_prev { ca with m_next := child }) r.1 r.2 (pc.m_prev :: child :: bid :: B) 0) :=
                  walk_append _ A'' (pc.m_prev :: child :: bid :: B) 0 0 0
              _ = walk (mapInsert (mapInsert (mapInsert m child { m_size := asz, m_offset := pc.m_offset, m_ty := kind, m_prev := pc.m_prev, m_next := bid }) bid { pc with m_prev := child, m_offset := pc.m_offset + asz, m_size := pc.m_size - asz }) pc.m_prev { ca with m_next := child }) q.1 q.2 (pc.m_prev :: child :: bid :: B) 0 := by
                  rw [headOr_cons, walk_congr m _ A'' hcongrA 0 0 pc.m_prev, hq, Option.some_bind]
              _ = walk (mapInsert (mapInsert (mapInsert m child { m_size := asz, m_offset := pc.m_offset, m_ty := kind, m_prev := pc.m_prev, m_next := bid }) bid { pc with m_prev := child, m_offset := pc.m_offset + asz, m_size := pc.m_size - asz }) pc.m_prev { ca with m_next := child }) pc.m_prev (q.2 + ca.m_size) (child :: bid :: B) 0 :=
                  walk_cons_intro _ q.1 q.2 pc.m_prev 0 (child :: bid :: B) { ca with m_next := child }
                    (by rw [hfind3, if_pos rfl]) hcaoff hcaprev rfl
              _ = walk (mapInsert (mapInsert (mapInsert m child { m_size := asz, m_offset := pc.m_offset, m_ty := kind, m_prev := pc.m_prev, m_next := bid }) bid { pc with m_prev := child, m_offset := pc.m_offset + asz, m_size := pc.m_size - asz }) pc.m_prev { ca with m_next := child }) child (q.2 + ca.m_size + asz) (bid :: B) 0 :=
                  walk_cons_intro _ pc.m_prev (q.2 + ca.m_size) child 0 (bid :: B) { m_size := asz, m_offset := pc.m_offset, m_ty := kind, m_prev := pc.m_prev, m_next := bid }
                    (by rw [hfind3, if_neg (Ne.symm hpA_child), if_neg hch_bid, if_pos rfl])
                    (hpcoff.trans hrA2) rfl rfl
              _ = walk (mapInsert (mapInsert (mapInsert m child { m_size := asz, m_offset := pc.m_offset, m_ty := kind, m_prev := pc.m_prev, m_next := bid }) bid { pc with m_prev := child, m_offset := pc.m_offset + asz, m_size := pc.m_size - asz }) pc.m_prev { ca with m_next := child }) bid (q.2 + ca.m_size + asz + (pc.m_size - asz)) B 0 :=
                  walk_cons_intro _ child (q.2 + ca.m_size + asz) bid 0 B { pc with m_prev := child, m_offset := pc.m_offset + asz, m_size := pc.m_size - asz }
                    (by rw [hfind3, if_neg (Ne.symm hpA_bid), if_pos rfl])
                    (by show pc.m_offset + asz = q.2 + ca.m_size + asz; rw [hpcoff, hrA2]) rfl hpcnext
              _ = walk m bid (q.2 + ca.m_size + asz + (pc.m_size - asz)) B 0 :=
                  walk_congr m _ B hcongrB2 bid _ 0
              _ = some (pend, cap) := by
                  have hoffe : q.2 + ca.m_size + asz + (pc.m_size - asz) = rA.2 + pc.m_size := by omega
                  rw [hoffe]
                  exact hwB
    · rw [if_neg hp]
      push_neg at hp
      -- the chain has no predecessor: A must be empty
      rcases walk_last m A 0 0 bid rA hA with ⟨hAnil, -⟩ | ⟨A'', hAeq⟩
      · subst hAnil
        rw [walk] at hA
        have hr2 : rA.2 = 0 := by rw [← Option.some.inj hA]
        refine ⟨hsorted2, hnd2, h02, hlt2, ?_, ?_⟩
        · intro k
          rw [hfind2 k]
          by_cases hk1 : k = bid
          · rw [if_pos hk1]
            simp only [Option.isSome_some, true_iff]
            rw [hk1]
            exact List.mem_append_right [] (List.mem_cons_of_mem _ (List.mem_cons_self _ _))
          · rw [if_neg hk1]
            by_cases hk2 : k = child
            · rw [if_pos hk2]
              simp only [Option.isSome_some, true_iff]
              rw [hk2]
              exact List.mem_append_right [] (List.mem_cons_self _ _)
            · rw [if_neg hk2, hkeys k]
              simp only [List.nil_append, List.mem_cons]
              constructor
              · rintro (h | h)
                · exact Or.inr (Or.inl h)
                · exact Or.inr (Or.inr h)
              · rintro (h | h | h)
                · exact absurd h hk2
                · exact Or.inl h
                · exact Or.inr h
        · refine ⟨pend, ?_⟩
          have hcongrB : ∀ i ∈ B, mapFind (mapInsert (mapInsert m child { m_size := asz, m_offset := pc.m_offset, m_ty := kind, m_prev := pc.m_prev, m_next := bid }) bid { pc with m_prev := child, m_offset := pc.m_offset + asz, m_size := pc.m_size - asz }) i = mapFind m i := by
            intro i hi
            rw [hfind2 i, if_neg (fun (he : i = bid) => hbid_B (he ▸ hi)),
              if_neg (fun (he : i = child) => hch_B (he ▸ hi))]
          calc walk (mapInsert (mapInsert m child { m_size := asz, m_offset := pc.m_offset, m_ty := kind, m_prev := pc.m_prev, m_next := bid }) bid { pc with m_prev := child, m_offset := pc.m_offset + asz, m_size := pc.m_size - asz }) 0 0 ([] ++ child :: bid :: B) 0
              = walk (mapInsert (mapInsert m child { m_size := asz, m_offset := pc.m_offset, m_ty := kind, m_prev := pc.m_prev, m_next := bid }) bid { pc with m_prev := child, m_offset := pc.m_offset + asz, m_size := pc.m_size - asz }) child (0 + asz) (bid :: B) 0 :=
              walk_cons_intro _ 0 0 child 0 (bid :: B) { m_size := asz, m_offset := pc.m_offset, m_ty := kind, m_prev := pc.m_prev, m_next := bid }
                (by rw [hfind2, if_neg hch_bid, if_pos rfl]) (hpcoff.trans hr2) hp rfl
            _ = walk (mapInsert (mapInsert m child { m_size := asz, m_offset := pc.m_offset, m_ty := kind, m_prev := pc.m_prev, m_next := bid }) bid { pc with m_prev := child, m_offset := pc.m_offset + asz, m_size := pc.m_size - asz }) bid (0 + asz + (pc.m_size - asz)) B 0 :=
              walk_cons_intro _ child (0 + asz) bid 0 B { pc with m_prev := child, m_offset := pc.m_offset + asz, m_size := pc.m_size - asz }
                (by rw [hfind2, if_pos rfl])
                (by show pc.m_offset + asz = 0 + asz; rw [hpcoff, hr2]) rfl hpcnext
            _ = walk m bid (0 + asz + (pc.m_size - asz)) B 0 :=
              walk_congr m _ B hcongrB bid _ 0
            _ = some (pend, cap) := by
              have hoffe : 0 + asz + (pc.m_size - asz) = rA.2 + pc.m_size := by omega
              rw [hoffe]
              exact hwB
      · have hmem : rA.1 ∈ A := by
          rw [hAeq]
          exact List.mem_append_right A'' (List.mem_cons_self _ _)
        have hz : rA.1 = 0 := hpcprev.symm.trans hp
        exact absurd (List.mem_append_left _ (hz ▸ hmem)) h0

/-- Every successful `DMemBlock::allocate` preserves block well-formedness. -/
lemma wf_allocate (b : DMemBlock) (size alignment : Nat) (linear : Bool)
    (granularity : Nat) (out0 out : SingleAllocation) (b' : DMemBlock)
    (hb : wfb b)
    (h : b.allocate size alignment linear granularity out0 = some (out, b')) :
    wfb b' := by
  obtain ⟨hcnt, hwf⟩ := hb
  have hnd : (List.map Prod.fst b.m_chunks).Nodup := sortedKeys_nodup _ hwf.1
  have hscan := allocScan_inv b size alignment granularity hnd
  unfold DMemBlock.allocate at h
  split at h
  · exact absurd h (by simp)
  · simp only [] at h
    split at h
    · exact absurd h (by simp)
    · rename_i hbid
      obtain ⟨c, hfind, hty, hbcs, hle, holt, hform⟩ := hscan hbid
      split at h
      · -- subdivide branch: a fresh child id is linked in before the winner
        split at h
        · exact absurd h (by simp)
        · rename_i hr1
          injection h with h2
          rw [Prod.mk.injEq] at h2
          obtain ⟨-, hb'⟩ := h2
          by_cases hcmax : b.m_counter = U64 - 1
          · exact absurd (by rw [DMemBlock.next_chunk_id, if_pos hcmax]) hr1
          · have hnc : b.next_chunk_id =
                (b.m_counter, { b with m_counter := b.m_counter + 1 }) := by
              rw [DMemBlock.next_chunk_id, if_neg hcmax]
            rw [hnc] at hb'
            rw [← hb']
            constructor
            · show 2 ≤ b.m_counter + 1
              omega
            · show wfChunks (splitChunks b.m_chunks
                (allocScan b size alignment granularity).best_fit_id b.m_counter
                (allocScan b size alignment granularity).best_aligned_size
                (if linear then SubchunkType.Linear else SubchunkType.Image))
                b.m_size (b.m_counter + 1)
              obtain ⟨hsorted, ids, hnod, h0id, hltid, hkeysid, hchain⟩ := hwf
              have hmemS : (allocScan b size alignment granularity).best_fit_id ∈ ids :=
                (hkeysid _).mp (by rw [hfind]; rfl)
              obtain ⟨A, B, hids⟩ := List.append_of_mem hmemS
              subst hids
              have hS := split_surgery b.m_chunks b.m_size (b.m_counter + 1) A B
                (allocScan b size alignment granularity).best_fit_id b.m_counter
                (allocScan b size alignment granularity).best_aligned_size
                (if linear then SubchunkType.Linear else SubchunkType.Image)
                hsorted hnod h0id
                (fun i hi => Nat.lt_succ_of_lt (hltid i hi)) hkeysid hchain
                (by omega)
                (fun hm => absurd (hltid _ hm) (Nat.lt_irrefl _))
                (Nat.lt_succ_self _)
                (by rw [mapGetD_of_find _ _ _ hfind]; exact hle)
              exact ⟨hS.1, A ++ b.m_counter ::
                (allocScan b size alignment granularity).best_fit_id :: B,
                hS.2.1, hS.2.2.1, hS.2.2.2.1, hS.2.2.2.2.1, hS.2.2.2.2.2⟩
      · -- exact fit: the winner's kind is flipped in place
        injection h with h2
        rw [Prod.mk.injEq] at h2
        obtain ⟨-, hb'⟩ := h2
        rw [← hb']
        exact ⟨hcnt, wfChunks_flip b.m_chunks b.m_size b.m_counter
          (allocScan b size alignment granularity).best_fit_id
          (if linear then SubchunkType.Linear else SubchunkType.Image) c hfind hwf⟩

/-- A freshly constructed block is well-formed: chunk id 1 spans `[0, size)`. -/
lemma wf_create (size : Nat) (bf : Bool) : wfb (DMemBlock.create size bf) := by
  refine ⟨Nat.le_refl 2, ?_, [1], ?_, ?_, ?_, ?_, 1, ?_⟩
  · show List.Pairwise (fun a b => a < b) [1]
    exact List.pairwise_singleton _ _
  · simp
  · simp
  · simp
    exact Nat.one_lt_two
  · intro k
    show (mapFind [(1, { m_size := size, m_offset := 0, m_ty := SubchunkType.Free, m_prev := 0, m_next := 0 })] k).isSome ↔ k ∈ [1]
    rw [mapFind_cons]
    by_cases hk : k = 1
    · rw [if_pos hk]
      simp [hk]
    · rw [if_neg hk]
      simp [hk, mapFind]
  · rw [walk_cons_intro (DMemBlock.create size bf).m_chunks 0 0 1 0 [] { m_size := size, m_offset := 0, m_ty := SubchunkType.Free, m_prev := 0, m_next := 0 } rfl rfl rfl rfl, walk, Nat.zero_add]
    rfl

/-- Each driven operation preserves block well-formedness. -/
lemma wf_runOp (b : DMemBlock) (op : Op) (hb : wfb b) : wfb (runOp b op) := by
  cases op with
  | alloc size alignment linear granularity =>
    rw [runOp]
    cases hal : b.allocate size alignment linear granularity SingleAllocation.null with
    | none => exact hb
    | some p =>
      obtain ⟨o, b'⟩ := p
      exact wf_allocate b size alignment linear granularity
        SingleAllocation.null o b' hb hal
  | free id =>
    rw [runOp]
    exact wf_free b id hb

/-- C2 (confirmed): for every block capacity `size` and fit policy, after any
sequence of `DMemBlock::allocate` / `DMemBlock::free` operations starting from
construction, the chunk map partitions `[0, size)` exactly once — some ordering
of its ids walks from offset 0 to `size` with each chunk starting exactly where
the previous one ends (no gaps, no overlaps) — and the walk order is a valid
doubly-linked traversal: each chunk's `m_prev`/`m_next` name the neighbouring
ids, with id 0 as the sentinel at both ends. -/
theorem c2_partition_invariant (size : Nat) (bf : Bool) (ops : List Op) :
    wfb (runOps ops (DMemBlock.create size bf)) := by
  have hgen : ∀ (l : List Op) (b : DMemBlock), wfb b → wfb (l.foldl runOp b) := by
    intro l
    induction l with
    | nil =>
      intro b hb
      exact hb
    | cons op t ih =>
      intro b hb
      exact ih _ (wf_runOp b op hb)
  exact hgen ops _ (wf_create size bf)

end Vkw
